import Mathlib

/-!
Verification of the BFPS multiplayer server (`src/MultiplayerServer`):
a shallow embedding of `maze.js`, `collision.js`, `room.js` and the
message handlers of `server.js`, with theorems checking the stated
properties of the maze generator, spawn placement, collision oracle,
movement/combat handlers and session lifecycle.
-/

namespace BFPS

/-! ## Maze generator (`maze.js`) -/

/-- The four wall directions of a maze cell (`maze.js` `DIRS` names). -/
inductive Dir : Type
  | north | south | east | west
deriving DecidableEq, Repr

/-- The `opposite` field of each `DIRS` entry in `maze.js`. -/
def Dir.opposite : Dir → Dir
  | .north => .south
  | .south => .north
  | .east => .west
  | .west => .east

/-- `maze.js` iterates `DIRS` in this order when collecting neighbours. -/
def DIRS : List Dir := [.north, .south, .east, .west]

/-- A grid cell address `(r, c)`. -/
abbrev Cell := Nat × Nat

/-- The neighbour `(r + dr, c + dc)` of `p` in direction `d` when it lies
inside the `rows × cols` grid.  `maze.js` computes `nr = r + dr` over signed
integers and tests `nr >= 0 && nr < rows && nc >= 0 && nc < cols`; here the
offsets `dr`/`dc` of `DIRS` are folded into each case, with `nr >= 0`
rendered as `1 ≤ r` for the `-1` offsets so the arithmetic stays in `Nat`. -/
def adjCell (rows cols : Nat) (p : Cell) : Dir → Option Cell
  | .north =>
    if 1 ≤ p.1 ∧ p.1 - 1 < rows ∧ p.2 < cols then some (p.1 - 1, p.2) else none
  | .south =>
    if p.1 + 1 < rows ∧ p.2 < cols then some (p.1 + 1, p.2) else none
  | .east =>
    if p.1 < rows ∧ p.2 + 1 < cols then some (p.1, p.2 + 1) else none
  | .west =>
    if p.1 < rows ∧ 1 ≤ p.2 ∧ p.2 - 1 < cols then some (p.1, p.2 - 1) else none

/-- A maze as returned by `generateMaze`: `openW` holds `(cell, d)` exactly
when the boolean wall field of `cell` on side `d` is `true` (wall open). -/
structure Maze where
  rows : Nat
  cols : Nat
  openW : Finset (Cell × Dir)
deriving DecidableEq

/-- The mutable state of the `maze.js` backtracker loop: the set of open
walls, the visited flags, the explicit stack, and a counter indexing the
stream of random choices. -/
structure GenState where
  openW : Finset (Cell × Dir)
  visited : Finset Cell
  stack : List Cell
  t : Nat

/-- The unvisited in-bounds neighbours of `p`, in `DIRS` order
(`maze.js` lines 44-58). -/
def unvisitedNeighbours (rows cols : Nat) (visited : Finset Cell) (p : Cell) :
    List (Dir × Cell) :=
  DIRS.filterMap fun d =>
    match adjCell rows cols p d with
    | some q => if q ∈ visited then none else some (d, q)
    | none => none

/-- One iteration of the `maze.js` while-loop (lines 41-74): peek the stack
top, collect unvisited neighbours; pop if there are none, otherwise open the
shared wall on both sides of a randomly chosen neighbour, mark it visited and
push it.  The oracle `rng` supplies the random choices:
`Math.floor(Math.random() * neighbours.length)` becomes `rng s.t % length`,
which ranges over exactly the indices the JS expression can produce. -/
def stepGen (rows cols : Nat) (rng : Nat → Nat) : GenState → GenState
  | ⟨w, v, [], t⟩ => ⟨w, v, [], t⟩
  | ⟨w, v, p :: rest, t⟩ =>
    let ns := unvisitedNeighbours rows cols v p
    if ns.isEmpty then ⟨w, v, rest, t⟩
    else
      let dq := ns.getD (rng t % ns.length) (Dir.north, (0, 0))
      ⟨insert (dq.2, dq.1.opposite) (insert (p, dq.1) w), insert dq.2 v,
        dq.2 :: p :: rest, t + 1⟩

/-- The `maze.js` loop with explicit fuel; `2*rows*cols` fuel is proved
sufficient below, so the embedding coincides with the JS loop. -/
def loopGen (rows cols : Nat) (rng : Nat → Nat) : Nat → GenState → GenState
  | 0, s => s
  | fuel + 1, s =>
    if s.stack.isEmpty then s
    else loopGen rows cols rng fuel (stepGen rows cols rng s)

/-- Initial state of `generateMaze`: all walls closed, `(0,0)` visited and
pushed (`maze.js` lines 36-39). -/
def initGenState : GenState := ⟨∅, {(0, 0)}, [(0, 0)], 0⟩

/-- `maze.js` `generateMaze(rows, cols)`: iterative randomized depth-first
backtracker.  The `visited` flags are stripped before returning, which the
`Maze` structure reflects by carrying only the walls. -/
def generateMaze (rows cols : Nat) (rng : Nat → Nat) : Maze :=
  { rows := rows, cols := cols
    openW := (loopGen rows cols rng (2 * rows * cols) initGenState).openW }

/-- `q` is adjacent to `p` through a wall that is open in `w`. -/
def openAdjW (rows cols : Nat) (w : Finset (Cell × Dir)) (p q : Cell) : Prop :=
  ∃ d : Dir, (p, d) ∈ w ∧ adjCell rows cols p d = some q

/-- `q` is reachable from `p` through open walls of `w`. -/
def reachW (rows cols : Nat) (w : Finset (Cell × Dir)) (p q : Cell) : Prop :=
  Relation.ReflTransGen (openAdjW rows cols w) p q

/-- `q` is reachable from `p` through open walls of the maze. -/
def reachable (m : Maze) (p q : Cell) : Prop :=
  reachW m.rows m.cols m.openW p q

/-- All cells of a `rows × cols` grid. -/
def cellsFinset (rows cols : Nat) : Finset Cell :=
  Finset.range rows ×ˢ Finset.range cols

/-- The number of open wall-pairs of a wall set: every open pair between two
adjacent cells is represented by its south/east member, so each pair is
counted exactly once. -/
def pairsCount (w : Finset (Cell × Dir)) : Nat :=
  (w.filter fun e => e.2 = Dir.south ∨ e.2 = Dir.east).card

/-- The number of open wall-pairs of a maze. -/
def openWallPairs (m : Maze) : Nat := pairsCount m.openW

/-! ### Basic lemmas about grid adjacency -/

theorem Dir.opposite_ne (d : Dir) : d.opposite ≠ d := by
  cases d <;> simp [Dir.opposite]

theorem mem_cellsFinset {rows cols : Nat} {p : Cell} :
    p ∈ cellsFinset rows cols ↔ p.1 < rows ∧ p.2 < cols := by
  simp [cellsFinset, Finset.mem_product]

theorem adjCell_bounds {rows cols : Nat} {p q : Cell} {d : Dir}
    (h : adjCell rows cols p d = some q) : q.1 < rows ∧ q.2 < cols := by
  cases d <;>
    (simp only [adjCell] at h
     split at h
     · rename_i hcond
       injection h with h
       subst h
       exact ⟨by omega, by omega⟩
     · exact absurd h (by simp))

theorem adjCell_opposite {rows cols : Nat} {p q : Cell} {d : Dir}
    (hp1 : p.1 < rows) (hp2 : p.2 < cols)
    (h : adjCell rows cols p d = some q) :
    adjCell rows cols q d.opposite = some p := by
  cases d <;>
    (simp only [adjCell, Dir.opposite] at h ⊢
     split at h
     · rename_i hcond
       injection h with h
       subst h
       rw [if_pos (by constructor <;> omega)]
       simp only [Option.some.injEq]
       apply Prod.ext <;> (show _ = _) <;> omega
     · exact absurd h (by simp))

theorem mem_unvisitedNeighbours {rows cols : Nat} {v : Finset Cell}
    {p q : Cell} {d : Dir} :
    (d, q) ∈ unvisitedNeighbours rows cols v p ↔
      adjCell rows cols p d = some q ∧ q ∉ v := by
  unfold unvisitedNeighbours
  rw [List.mem_filterMap]
  constructor
  · rintro ⟨d', _, heq⟩
    cases hadj : adjCell rows cols p d' with
    | none => rw [hadj] at heq; exact absurd heq (by simp)
    | some q' =>
      rw [hadj] at heq
      by_cases hv : q' ∈ v
      · simp [hv] at heq
      · simp only [if_neg hv, Option.some.injEq, Prod.mk.injEq] at heq
        obtain ⟨rfl, rfl⟩ := heq
        exact ⟨hadj, hv⟩
  · rintro ⟨hadj, hv⟩
    refine ⟨d, by cases d <;> simp [DIRS], ?_⟩
    rw [hadj]
    simp [hv]

/-! ### The backtracker loop invariant (claim C4) -/

/-- Invariant of the `maze.js` backtracker loop. -/
structure GenInv (rows cols : Nat) (s : GenState) : Prop where
  vBounds : s.visited ⊆ cellsFinset rows cols
  origin : (0, 0) ∈ s.visited
  stackVis : ∀ p ∈ s.stack, p ∈ s.visited
  wallSym : ∀ p d, (p, d) ∈ s.openW → ∃ q,
      adjCell rows cols p d = some q ∧ (q, d.opposite) ∈ s.openW ∧
      p ∈ s.visited ∧ q ∈ s.visited
  reach : ∀ p ∈ s.visited, reachW rows cols s.openW (0, 0) p
  count : pairsCount s.openW + 1 = s.visited.card
  closedOff : ∀ p ∈ s.visited, p ∉ s.stack →
      ∀ d q, adjCell rows cols p d = some q → q ∈ s.visited

/-- Termination measure of the loop: each iteration decreases it. -/
def measureGen (rows cols : Nat) (s : GenState) : Nat :=
  2 * (rows * cols - s.visited.card) + s.stack.length

theorem card_cellsFinset (rows cols : Nat) :
    (cellsFinset rows cols).card = rows * cols := by
  simp [cellsFinset]

theorem Dir.opposite_opposite (d : Dir) : d.opposite.opposite = d := by
  cases d <;> rfl

theorem reachW_mono {rows cols : Nat} {w w' : Finset (Cell × Dir)}
    (hsub : w ⊆ w') {p q : Cell} (h : reachW rows cols w p q) :
    reachW rows cols w' p q :=
  Relation.ReflTransGen.mono
    (fun _ _ hadj => hadj.imp fun _ hd => ⟨hsub hd.1, hd.2⟩) h

/-- Opening the two sides of one closed wall adds exactly one open wall-pair. -/
theorem pairsCount_open {w : Finset (Cell × Dir)} {p q : Cell} {d : Dir}
    (hpd : (p, d) ∉ w) (hqop : (q, d.opposite) ∉ insert (p, d) w) :
    pairsCount (insert (q, d.opposite) (insert (p, d) w)) = pairsCount w + 1 := by
  have hqw : (q, d.opposite) ∉ w := fun h => hqop (Finset.mem_insert_of_mem h)
  unfold pairsCount
  cases d <;> simp only [Dir.opposite] at hqop hqw ⊢
  case north =>
    rw [Finset.filter_insert, Finset.filter_insert, if_pos (by simp),
      if_neg (by simp),
      Finset.card_insert_of_not_mem (fun h => hqw (Finset.mem_of_mem_filter _ h))]
  case south =>
    rw [Finset.filter_insert, Finset.filter_insert, if_neg (by simp),
      if_pos (by simp),
      Finset.card_insert_of_not_mem (fun h => hpd (Finset.mem_of_mem_filter _ h))]
  case east =>
    rw [Finset.filter_insert, Finset.filter_insert, if_neg (by simp),
      if_pos (by simp),
      Finset.card_insert_of_not_mem (fun h => hpd (Finset.mem_of_mem_filter _ h))]
  case west =>
    rw [Finset.filter_insert, Finset.filter_insert, if_pos (by simp),
      if_neg (by simp),
      Finset.card_insert_of_not_mem (fun h => hqw (Finset.mem_of_mem_filter _ h))]

theorem stepGen_preserves {rows cols : Nat} {rng : Nat → Nat} {s : GenState}
    (hI : GenInv rows cols s) (hne : s.stack ≠ []) :
    GenInv rows cols (stepGen rows cols rng s) ∧
      measureGen rows cols (stepGen rows cols rng s) < measureGen rows cols s := by
  obtain ⟨w, v, stack, t⟩ := s
  cases stack with
  | nil => exact absurd rfl hne
  | cons p rest =>
  clear hne
  have hpv : p ∈ v := hI.stackVis p (List.mem_cons_self p rest)
  have hpb : p ∈ cellsFinset rows cols := hI.vBounds hpv
  cases hcase : unvisitedNeighbours rows cols v p with
  | nil =>
    -- pop: every in-bounds neighbour of `p` is already visited
    have hforall : ∀ d q, adjCell rows cols p d = some q → q ∈ v := by
      intro d q hadj
      by_contra hq
      have : (d, q) ∈ unvisitedNeighbours rows cols v p :=
        mem_unvisitedNeighbours.mpr ⟨hadj, hq⟩
      rw [hcase] at this
      simp at this
    constructor
    · simp only [stepGen, hcase, List.isEmpty_nil, if_true]
      refine ⟨hI.vBounds, hI.origin, ?_, hI.wallSym, hI.reach, hI.count, ?_⟩
      · exact fun x hx => hI.stackVis x (List.mem_cons_of_mem p hx)
      · intro x hx hxrest d q hadj
        by_cases hxp : x = p
        · subst hxp
          exact hforall d q hadj
        · exact hI.closedOff x hx (by simp [hxp, hxrest]) d q hadj
    · simp only [stepGen, hcase, List.isEmpty_nil, if_true, measureGen,
        List.length_cons]
      omega
  | cons hd tl =>
    -- push: open the wall towards the chosen unvisited neighbour
    have hlen : 0 < (unvisitedNeighbours rows cols v p).length := by
      rw [hcase]; simp
    have hmem :
        (unvisitedNeighbours rows cols v p).getD
            (rng t % (unvisitedNeighbours rows cols v p).length)
            (Dir.north, (0, 0)) ∈ unvisitedNeighbours rows cols v p := by
      rw [List.getD_eq_getElem _ _ (Nat.mod_lt _ hlen)]
      exact List.getElem_mem _
    set dq := (unvisitedNeighbours rows cols v p).getD
        (rng t % (unvisitedNeighbours rows cols v p).length)
        (Dir.north, (0, 0)) with hdq
    obtain ⟨hadj, hqv⟩ :
        adjCell rows cols p dq.1 = some dq.2 ∧ dq.2 ∉ v :=
      mem_unvisitedNeighbours.mp hmem
    have hqb : dq.2 ∈ cellsFinset rows cols :=
      mem_cellsFinset.mpr (adjCell_bounds hadj)
    have hqp : dq.2 ≠ p := fun h => hqv (h ▸ hpv)
    have hadjop : adjCell rows cols dq.2 dq.1.opposite = some p :=
      adjCell_opposite (mem_cellsFinset.mp hpb).1 (mem_cellsFinset.mp hpb).2 hadj
    have hpdnot : (p, dq.1) ∉ w := by
      intro hmemw
      obtain ⟨q', hadj', _, _, hq'⟩ := hI.wallSym p dq.1 hmemw
      rw [hadj] at hadj'
      injection hadj' with h'
      exact hqv (h' ▸ hq')
    have hqopnot : (dq.2, dq.1.opposite) ∉ w := by
      intro hmemw
      obtain ⟨q', _, _, hq2, _⟩ := hI.wallSym dq.2 dq.1.opposite hmemw
      exact hqv hq2
    have hstep : stepGen rows cols rng ⟨w, v, p :: rest, t⟩ =
        ⟨insert (dq.2, dq.1.opposite) (insert (p, dq.1) w), insert dq.2 v,
          dq.2 :: p :: rest, t + 1⟩ := by
      simp only [stepGen]
      rw [if_neg (by rw [hcase]; simp)]
    rw [hstep]
    have hsubW : w ⊆ insert (dq.2, dq.1.opposite) (insert (p, dq.1) w) :=
      fun x hx => Finset.mem_insert_of_mem (Finset.mem_insert_of_mem hx)
    have hpdW : (p, dq.1) ∈ insert (dq.2, dq.1.opposite) (insert (p, dq.1) w) :=
      Finset.mem_insert_of_mem (Finset.mem_insert_self _ _)
    have hcard : v.card + 1 ≤ rows * cols := by
      have : insert dq.2 v ⊆ cellsFinset rows cols :=
        Finset.insert_subset hqb hI.vBounds
      have := Finset.card_le_card this
      rwa [Finset.card_insert_of_not_mem hqv, card_cellsFinset] at this
    constructor
    · refine ⟨Finset.insert_subset hqb hI.vBounds,
        Finset.mem_insert_of_mem hI.origin, ?_, ?_, ?_, ?_, ?_⟩
      · intro x hx
        rcases List.mem_cons.mp hx with h | h
        · exact h ▸ Finset.mem_insert_self _ _
        · exact Finset.mem_insert_of_mem (hI.stackVis x h)
      · intro x dx hx
        rcases Finset.mem_insert.mp hx with h | h
        · simp only [Prod.mk.injEq] at h
          obtain ⟨h1, h2⟩ := h
          subst h1; subst h2
          refine ⟨p, hadjop, ?_, Finset.mem_insert_self _ _,
            Finset.mem_insert_of_mem hpv⟩
          rw [Dir.opposite_opposite]
          exact hpdW
        · rcases Finset.mem_insert.mp h with h' | h'
          · simp only [Prod.mk.injEq] at h'
            obtain ⟨h1, h2⟩ := h'
            subst h1; subst h2
            exact ⟨dq.2, hadj, Finset.mem_insert_self _ _,
              Finset.mem_insert_of_mem hpv, Finset.mem_insert_self _ _⟩
          · obtain ⟨q', ha, hb, hc, hd'⟩ := hI.wallSym x dx h'
            exact ⟨q', ha, hsubW hb, Finset.mem_insert_of_mem hc,
              Finset.mem_insert_of_mem hd'⟩
      · intro x hx
        rcases Finset.mem_insert.mp hx with h | h
        · subst h
          exact Relation.ReflTransGen.tail
            (reachW_mono hsubW (hI.reach p hpv)) ⟨dq.1, hpdW, hadj⟩
        · exact reachW_mono hsubW (hI.reach x h)
      · show pairsCount _ + 1 = (insert dq.2 v).card
        have hne' : (dq.2, dq.1.opposite) ≠ (p, dq.1) := by
          intro h
          exact hqp (congrArg Prod.fst h)
        have hqopnot' : (dq.2, dq.1.opposite) ∉ insert (p, dq.1) w :=
          fun h => (Finset.mem_insert.mp h).elim hne' hqopnot
        rw [Finset.card_insert_of_not_mem hqv, ← hI.count,
          pairsCount_open hpdnot hqopnot']
      · intro x hx hxstack d q hadj'
        rcases Finset.mem_insert.mp hx with h | h
        · exact absurd (h ▸ List.mem_cons_self _ _) hxstack
        · refine Finset.mem_insert_of_mem ?_
          exact hI.closedOff x h
            (fun hmem => hxstack (List.mem_cons_of_mem _ hmem)) d q hadj'
    · show measureGen _ _ _ < measureGen _ _ _
      unfold measureGen
      simp only [List.length_cons, Finset.card_insert_of_not_mem hqv]
      omega

theorem loopGen_inv {rows cols : Nat} {rng : Nat → Nat} {f : Nat} {s : GenState}
    (hI : GenInv rows cols s) : GenInv rows cols (loopGen rows cols rng f s) := by
  induction f generalizing s with
  | zero => exact hI
  | succ f ih =>
    unfold loopGen
    split
    · exact hI
    · rename_i hne
      exact ih (stepGen_preserves hI (by simpa using hne)).1

theorem loopGen_empty {rows cols : Nat} {rng : Nat → Nat} :
    ∀ (f : Nat) (s : GenState), GenInv rows cols s →
      measureGen rows cols s ≤ f → (loopGen rows cols rng f s).stack = [] := by
  intro f
  induction f with
  | zero =>
    intro s _ hm
    unfold measureGen at hm
    unfold loopGen
    have : s.stack.length = 0 := by omega
    exact List.length_eq_zero.mp this
  | succ f ih =>
    intro s hI hm
    unfold loopGen
    split
    · rename_i h
      simpa using h
    · rename_i hne
      obtain ⟨hI', hlt⟩ := stepGen_preserves hI (by simpa using hne)
      exact ih _ hI' (by omega)

theorem initGenState_inv {rows cols : Nat} (hr : 1 ≤ rows) (hc : 1 ≤ cols) :
    GenInv rows cols initGenState := by
  refine ⟨?_, ?_, ?_, ?_, ?_, ?_, ?_⟩
  · intro p hp
    simp only [initGenState, Finset.mem_singleton] at hp
    subst hp
    exact mem_cellsFinset.mpr ⟨hr, hc⟩
  · simp [initGenState]
  · intro p hp
    simp only [initGenState, List.mem_singleton] at hp
    simp [initGenState, hp]
  · intro p d h
    simp [initGenState] at h
  · intro p hp
    simp only [initGenState, Finset.mem_singleton] at hp
    subst hp
    exact Relation.ReflTransGen.refl
  · simp [initGenState, pairsCount]
  · intro p hp hstack
    simp only [initGenState, Finset.mem_singleton] at hp
    simp [initGenState, hp] at hstack

/-- A set of cells containing `(0,0)` and closed under in-bounds adjacency
contains every cell of the grid. -/
theorem visited_all {rows cols : Nat} {v : Finset Cell} (h0 : (0, 0) ∈ v)
    (hcl : ∀ p ∈ v, ∀ d q, adjCell rows cols p d = some q → q ∈ v) :
    ∀ r c, r < rows → c < cols → (r, c) ∈ v := by
  have hsouth : ∀ r c, r + 1 < rows → c < cols → (r, c) ∈ v → (r + 1, c) ∈ v := by
    intro r c h1 h2 hv
    refine hcl (r, c) hv Dir.south (r + 1, c) ?_
    simp only [adjCell]
    rw [if_pos ⟨h1, h2⟩]
  have heast : ∀ r c, r < rows → c + 1 < cols → (r, c) ∈ v → (r, c + 1) ∈ v := by
    intro r c h1 h2 hv
    refine hcl (r, c) hv Dir.east (r, c + 1) ?_
    simp only [adjCell]
    rw [if_pos ⟨h1, h2⟩]
  have hrow0 : ∀ r, r < rows → 0 < cols → (r, 0) ∈ v := by
    intro r
    induction r with
    | zero => intro _ _; exact h0
    | succ r ih => intro hr hc; exact hsouth r 0 hr hc (ih (by omega) hc)
  intro r c hr
  induction c with
  | zero => intro hc; exact hrow0 r hr hc
  | succ c ih => intro hc; exact heast r c hr hc (ih (by omega))

/-- **C4.** For all `rows, cols ≥ 1` and every outcome of the random
neighbour choices, `generateMaze` terminates and returns a maze in which
every cell is reachable from `(0,0)` through open walls, the number of open
wall-pairs is `rows*cols - 1`, and the open walls are symmetric (each open
wall-pair is open on both sides) — i.e. the maze is a spanning tree over the
grid. -/
theorem generateMaze_spanning_tree (rows cols : Nat) (rng : Nat → Nat)
    (hr : 1 ≤ rows) (hc : 1 ≤ cols) :
    (∀ p ∈ cellsFinset rows cols,
        reachable (generateMaze rows cols rng) (0, 0) p) ∧
      openWallPairs (generateMaze rows cols rng) = rows * cols - 1 ∧
      (∀ p d, (p, d) ∈ (generateMaze rows cols rng).openW →
        ∃ q, adjCell rows cols p d = some q ∧
          (q, d.opposite) ∈ (generateMaze rows cols rng).openW) := by
  have hI0 := @initGenState_inv rows cols hr hc
  have hrc : 1 ≤ rows * cols := Nat.mul_pos hr hc
  have hm0 : measureGen rows cols initGenState ≤ 2 * rows * cols := by
    unfold measureGen initGenState
    simp only [Finset.card_singleton, List.length_singleton]
    rw [Nat.mul_assoc]
    omega
  have hIF : GenInv rows cols (loopGen rows cols rng (2 * rows * cols) initGenState) :=
    loopGen_inv hI0
  have hempty : (loopGen rows cols rng (2 * rows * cols) initGenState).stack = [] :=
    loopGen_empty _ _ hI0 hm0
  have hall : ∀ p ∈ cellsFinset rows cols,
      p ∈ (loopGen rows cols rng (2 * rows * cols) initGenState).visited := by
    intro p hp
    obtain ⟨h1, h2⟩ := mem_cellsFinset.mp hp
    have := visited_all hIF.origin
      (fun p hp d q hadj => hIF.closedOff p hp (by rw [hempty]; simp) d q hadj)
      p.1 p.2 h1 h2
    rwa [Prod.mk.eta] at this
  have hveq : (loopGen rows cols rng (2 * rows * cols) initGenState).visited =
      cellsFinset rows cols :=
    Finset.Subset.antisymm hIF.vBounds (fun p hp => hall p hp)
  refine ⟨?_, ?_, ?_⟩
  · intro p hp
    exact hIF.reach p (hveq ▸ hp)
  · have hcount := hIF.count
    rw [hveq, card_cellsFinset] at hcount
    unfold openWallPairs generateMaze
    dsimp only
    omega
  · intro p d h
    obtain ⟨q, h1, h2, _, _⟩ := hIF.wallSym p d h
    exact ⟨q, h1, h2⟩

/-- Witness for C4 at `rows = cols = 2` with the all-zeros choice stream. -/
theorem generateMaze_spanning_tree_witness :
    (1 ≤ 2 ∧ 1 ≤ 2) ∧
      ((∀ p ∈ cellsFinset 2 2,
          reachable (generateMaze 2 2 (fun _ => 0)) (0, 0) p) ∧
        openWallPairs (generateMaze 2 2 (fun _ => 0)) = 2 * 2 - 1 ∧
        (∀ p d, (p, d) ∈ (generateMaze 2 2 (fun _ => 0)).openW →
          ∃ q, adjCell 2 2 p d = some q ∧
            (q, d.opposite) ∈ (generateMaze 2 2 (fun _ => 0)).openW)) :=
  ⟨⟨by decide, by decide⟩,
    generateMaze_spanning_tree 2 2 (fun _ => 0) (by decide) (by decide)⟩

/-! ## Spawn placement (`room.js` `_pickSpacedSpawns`, lines 152-187) -/

/-- `SPAWN_SPACING` of `room.js`. -/
def SPAWN_SPACING : Nat := 5

/-- `Math.abs(s.r - cell.r) + Math.abs(s.c - cell.c)` of `room.js`. -/
def manhattan (a b : Cell) : Nat :=
  ((a.1 : Int) - b.1).natAbs + ((a.2 : Int) - b.2).natAbs

/-- Two cells are acceptably far apart for spawn placement. -/
def spacedApart (a b : Cell) : Prop := SPAWN_SPACING ≤ manhattan a b

instance : DecidableRel spacedApart := fun a b =>
  inferInstanceAs (Decidable (SPAWN_SPACING ≤ manhattan a b))

/-- The row-major cell list built by `_pickSpacedSpawns` (room.js lines
154-159) before shuffling. -/
def allCells (rows cols : Nat) : List Cell :=
  (List.range rows).flatMap fun r => (List.range cols).map fun c => (r, c)

/-- The greedy acceptance loop of `_pickSpacedSpawns` (room.js lines
165-174): scan the shuffled list in order, accept a cell iff it is not
within `SPAWN_SPACING` (Manhattan) of any already-accepted cell, and stop
as soon as `count` cells are accepted. -/
def greedyLoop (count : Nat) (chosen : List Cell) : List Cell → List Cell
  | [] => chosen
  | cell :: rest =>
    if chosen.any fun s => manhattan s cell < SPAWN_SPACING then
      greedyLoop count chosen rest
    else
      if count ≤ (chosen ++ [cell]).length then chosen ++ [cell]
      else greedyLoop count (chosen ++ [cell]) rest

/-- The fallback fill of `_pickSpacedSpawns` (room.js lines 176-184): if the
greedy phase accepted fewer than `count` cells, fill the remaining slots with
any cells of the shuffled list not already chosen. -/
def fillLoop (count : Nat) (chosen : List Cell) : List Cell → List Cell
  | [] => chosen
  | cell :: rest =>
    if chosen.any fun s => s.1 == cell.1 && s.2 == cell.2 then
      fillLoop count chosen rest
    else
      if count ≤ (chosen ++ [cell]).length then chosen ++ [cell]
      else fillLoop count (chosen ++ [cell]) rest

/-- `room.js` `_pickSpacedSpawns(count, rows, cols)`, given the outcome
`shuffled` of the Fisher-Yates shuffle of the row-major cell list — the
shuffle outcomes are exactly the permutations of `allCells rows cols`. -/
def pickSpacedSpawns (count : Nat) (shuffled : List Cell) : List Cell :=
  if (greedyLoop count [] shuffled).length < count then
    fillLoop count (greedyLoop count [] shuffled) shuffled
  else greedyLoop count [] shuffled

theorem greedyLoop_pairwise (count : Nat) (l : List Cell) :
    ∀ chosen, chosen.Pairwise spacedApart →
      (greedyLoop count chosen l).Pairwise spacedApart := by
  induction l with
  | nil => intro chosen h; exact h
  | cons cell rest ih =>
    intro chosen h
    unfold greedyLoop
    split
    · exact ih chosen h
    · rename_i hany
      have hfar : ∀ a ∈ chosen, spacedApart a cell := by
        intro a ha
        have h1 : ¬ ∃ s ∈ chosen, manhattan s cell < SPAWN_SPACING := by
          rintro ⟨s, hs, hlt⟩
          exact hany (List.any_eq_true.mpr ⟨s, hs, by simpa using hlt⟩)
        push_neg at h1
        exact h1 a ha
      have hpw : (chosen ++ [cell]).Pairwise spacedApart := by
        rw [List.pairwise_append]
        exact ⟨h, List.pairwise_singleton _ _, by
          intro a ha b hb
          rw [List.mem_singleton] at hb
          exact hb ▸ hfar a ha⟩
      split
      · exact hpw
      · exact ih _ hpw

theorem greedyLoop_length (count : Nat) (l : List Cell) :
    ∀ chosen, chosen.length < count →
      (greedyLoop count chosen l).length ≤ count := by
  induction l with
  | nil => intro chosen h; exact Nat.le_of_lt h
  | cons cell rest ih =>
    intro chosen h
    unfold greedyLoop
    split
    · exact ih chosen h
    · split
      · rename_i hstop
        simp only [List.length_append, List.length_singleton] at hstop ⊢
        omega
      · rename_i hstop
        refine ih _ ?_
        simp only [List.length_append, List.length_singleton] at hstop ⊢
        omega

theorem fillLoop_length (count : Nat) (l : List Cell) :
    ∀ chosen, chosen.length < count →
      (fillLoop count chosen l).length ≤ count := by
  induction l with
  | nil => intro chosen h; exact Nat.le_of_lt h
  | cons cell rest ih =>
    intro chosen h
    unfold fillLoop
    split
    · exact ih chosen h
    · split
      · rename_i hstop
        simp only [List.length_append, List.length_singleton] at hstop ⊢
        omega
      · rename_i hstop
        refine ih _ ?_
        simp only [List.length_append, List.length_singleton] at hstop ⊢
        omega

theorem fillLoop_sub (count : Nat) (l : List Cell) :
    ∀ chosen, chosen ⊆ fillLoop count chosen l := by
  induction l with
  | nil => intro chosen; exact fun x hx => hx
  | cons cell rest ih =>
    intro chosen
    unfold fillLoop
    split
    · exact ih chosen
    · split
      · exact List.subset_append_left _ _
      · exact (List.subset_append_left _ _).trans (ih _)

theorem fillLoop_covers (count : Nat) (l : List Cell) :
    ∀ chosen, (fillLoop count chosen l).length < count →
      ∀ x ∈ l, x ∈ fillLoop count chosen l := by
  induction l with
  | nil => intro chosen _ x hx; exact absurd hx (List.not_mem_nil x)
  | cons cell rest ih =>
    intro chosen hlen x hx
    unfold fillLoop at hlen ⊢
    by_cases hmemb : (chosen.any fun s => s.1 == cell.1 && s.2 == cell.2) = true
    · rw [if_pos hmemb] at hlen ⊢
      obtain ⟨s, hs, hseq⟩ := List.any_eq_true.mp hmemb
      simp only [Bool.and_eq_true, beq_iff_eq] at hseq
      have hscell : s = cell := Prod.ext hseq.1 hseq.2
      rcases List.mem_cons.mp hx with h | h
      · subst h
        exact hscell ▸ fillLoop_sub count rest chosen hs
      · exact ih chosen hlen x h
    · rw [if_neg hmemb] at hlen ⊢
      by_cases hstop : count ≤ (chosen ++ [cell]).length
      · rw [if_pos hstop] at hlen
        simp only [List.length_append, List.length_singleton] at hstop hlen
        omega
      · rw [if_neg hstop] at hlen ⊢
        rcases List.mem_cons.mp hx with h | h
        · subst h
          exact fillLoop_sub count rest _
            (List.mem_append_right chosen (List.mem_singleton_self x))
        · exact ih _ hlen x h

theorem allCells_length (rows cols : Nat) :
    (allCells rows cols).length = rows * cols := by
  unfold allCells
  rw [List.length_flatMap]
  have : (List.length ∘ fun r : Nat => (List.range cols).map fun c => (r, c)) =
      fun _ : Nat => cols := by
    funext r
    simp
  rw [this, List.map_const', List.length_range, List.sum_const_nat]

theorem allCells_nodup (rows cols : Nat) : (allCells rows cols).Nodup := by
  unfold allCells
  rw [List.nodup_flatMap]
  constructor
  · intro r _
    exact List.Nodup.map (fun a b h => congrArg Prod.snd h) (List.nodup_range cols)
  · refine (List.nodup_range rows).pairwise_of_forall_ne ?_
    intro r1 _ r2 _ hne
    show List.Disjoint _ _
    intro a ha1 ha2
    simp only [List.mem_map, List.mem_range] at ha1 ha2
    obtain ⟨c1, -, rfl⟩ := ha1
    obtain ⟨c2, -, heq⟩ := ha2
    exact hne (congrArg Prod.fst heq).symm

/-- **C5 (amended).** For every permutation `shuffled` of the grid's cells
(i.e. every outcome of the random shuffle), every `count ≥ 1` and grid with
`rows*cols ≥ count * SPAWN_SPACING²`: `_pickSpacedSpawns` returns exactly
`count` cells, the cells accepted by its greedy phase are pairwise at
Manhattan distance ≥ `SPAWN_SPACING`, and whenever the greedy phase alone
reaches `count` cells the returned list is exactly the greedy one (so it is
pairwise spaced).  The pairwise-spacing guarantee for the *full* result does
not hold for every shuffle outcome (see the counterexample below): the
fallback fill can add cells closer than the spacing. -/
theorem pickSpacedSpawns_spec (count rows cols : Nat) (shuffled : List Cell)
    (hperm : shuffled.Perm (allCells rows cols)) (hn : 1 ≤ count)
    (harea : count * (SPAWN_SPACING * SPAWN_SPACING) ≤ rows * cols) :
    (pickSpacedSpawns count shuffled).length = count ∧
      (greedyLoop count [] shuffled).Pairwise spacedApart ∧
      (count ≤ (greedyLoop count [] shuffled).length →
        pickSpacedSpawns count shuffled = greedyLoop count [] shuffled) := by
  have hcells : count ≤ rows * cols := by
    have : count ≤ count * (SPAWN_SPACING * SPAWN_SPACING) :=
      Nat.le_mul_of_pos_right count (by norm_num [SPAWN_SPACING])
    omega
  have hglen : (greedyLoop count [] shuffled).length ≤ count :=
    greedyLoop_length count shuffled [] hn
  refine ⟨?_, greedyLoop_pairwise count shuffled [] (List.Pairwise.nil), ?_⟩
  · unfold pickSpacedSpawns
    split
    · rename_i hlt
      by_contra hne
      have hlt' : (fillLoop count (greedyLoop count [] shuffled) shuffled).length
          < count := by
        have := fillLoop_length count shuffled (greedyLoop count [] shuffled) hlt
        omega
      have hsub : shuffled ⊆ fillLoop count (greedyLoop count [] shuffled) shuffled :=
        fun x hx => fillLoop_covers count shuffled _ hlt' x hx
      have hfin : (allCells rows cols).toFinset ⊆
          (fillLoop count (greedyLoop count [] shuffled) shuffled).toFinset := by
        intro x hx
        rw [List.mem_toFinset] at hx ⊢
        exact hsub (hperm.mem_iff.mpr hx)
      have hcard := Finset.card_le_card hfin
      rw [List.toFinset_card_of_nodup (allCells_nodup rows cols),
        allCells_length] at hcard
      have := List.toFinset_card_le
        (fillLoop count (greedyLoop count [] shuffled) shuffled)
      omega
    · omega
  · intro hge
    unfold pickSpacedSpawns
    rw [if_neg (by omega)]

/-- Witness for the amended C5 at `count = 1` on a `5 × 5` grid with the
identity shuffle. -/
theorem pickSpacedSpawns_spec_witness :
    ((allCells 5 5).Perm (allCells 5 5) ∧ 1 ≤ 1 ∧
        1 * (SPAWN_SPACING * SPAWN_SPACING) ≤ 5 * 5) ∧
      ((pickSpacedSpawns 1 (allCells 5 5)).length = 1 ∧
        (greedyLoop 1 [] (allCells 5 5)).Pairwise spacedApart ∧
        (1 ≤ (greedyLoop 1 [] (allCells 5 5)).length →
          pickSpacedSpawns 1 (allCells 5 5) = greedyLoop 1 [] (allCells 5 5))) :=
  ⟨⟨List.Perm.refl _, by decide, by decide⟩,
    pickSpacedSpawns_spec 1 5 5 (allCells 5 5) (List.Perm.refl _)
      (by decide) (by decide)⟩

/-- A maximal 5-spaced set of 21 cells in the `11 × 50` grid: every grid
cell lies within Manhattan distance 4 of one of these, yet the grid has
`550 = 25·22` cells. -/
def exCenters : List Cell :=
  [(2, 2), (2, 7), (2, 12), (2, 17), (2, 22), (2, 27), (2, 32), (2, 37),
   (2, 42), (2, 47), (8, 4), (8, 9), (8, 14), (8, 19), (8, 24), (8, 29),
   (8, 34), (8, 39), (8, 44), (8, 49), (7, 0)]

/-- A shuffle outcome of the `11 × 50` cell list that presents the 21
cells of `exCenters` first. -/
def exShuffle : List Cell :=
  (allCells 11 50).filter (fun c => decide (c ∈ exCenters)) ++
    (allCells 11 50).filter fun c => !(decide (c ∈ exCenters))

set_option maxRecDepth 40000 in
/-- **C5 counterexample.** For the `11 × 50` grid and `count = 22` the area
hypothesis `rows*cols ≥ count·s²` holds with equality, `exShuffle` is a
permutation of the grid's cells (hence a possible shuffle outcome), yet
`_pickSpacedSpawns` returns 22 cells that are *not* pairwise at Manhattan
distance ≥ 5: the greedy phase accepts only the 21 maximal-spaced centers,
and the fallback fill adds `(0,0)`, which is at distance 4 from `(2,2)`. -/
theorem pickSpacedSpawns_spacing_cex :
    exShuffle.Perm (allCells 11 50) ∧
      22 * (SPAWN_SPACING * SPAWN_SPACING) ≤ 11 * 50 ∧
      (pickSpacedSpawns 22 exShuffle).length = 22 ∧
      ¬ (pickSpacedSpawns 22 exShuffle).Pairwise spacedApart :=
  ⟨List.filter_append_perm _ _, by decide, by decide, by decide⟩

/-! ## Player state (`room.js` `addPlayer`, lines 69-92)

Positions and angles are real numbers in JS; they are modelled as `ℚ`,
which is exact for every concrete value appearing in the claims. -/

/-- A 3-component vector `{x, y, z}`. -/
structure Vec3 where
  x : ℚ
  y : ℚ
  z : ℚ
deriving DecidableEq, Repr

/-- The player record built by `room.js` `addPlayer`.  `exitTriggered`
models the transient `_exitTriggered` property that `server.js` stores on
the player object (absent, i.e. falsy, until first written).
`persistentId` models the `persistentId` property read by the reattach loop
of `server.js`; `addPlayer` never writes it (it ignores the fourth argument
`server.js` passes), so reading it yields `undefined`, modelled `none`. -/
structure PlayerState where
  id : String
  name : String
  x : ℚ
  y : ℚ
  z : ℚ
  yaw : ℚ
  pitch : ℚ
  health : Int
  score : Int
  deaths : Int
  weapon : String
  sprinting : Bool
  alive : Bool
  level : Nat
  exitTriggered : Bool
  persistentId : Option String
deriving DecidableEq, Repr

/-! ## Collision oracle (`collision.js`) -/

/-- `CELL_SIZE` of `collision.js`. -/
def CELL_SIZE : ℚ := 6

/-- `WALL_THICKNESS` of `collision.js` (`0.15`). -/
def WALL_THICKNESS : ℚ := 3 / 20

/-- The boolean wall field `grid[r][c][dir]` of a maze, for in-bounds

`r`, `c` held as the loop's integer indices. -/
def wallOpen (m : Maze) (r c : Int) (d : Dir) : Bool :=
  decide (((r.toNat, c.toNat), d) ∈ m.openW)

/-- The integers from `a` to `b` inclusive (empty when `b < a`), the index
range of a JS `for (let i = a; i <= b; i++)` loop. -/
def rangeInt (a b : Int) : List Int :=
  (List.range (b - a + 1).toNat).map fun i => a + i

/-- The four wall-segment tests of `collision.js` `isBlocked` for one
overlapped cell (lines 31-72), in source order north, south, west, east. -/
def blockedInCell (m : Maze) (r c : Int) (x z radius : ℚ) : Bool :=
  let cellLeft : ℚ := c * CELL_SIZE
  let cellRight : ℚ := (c + 1) * CELL_SIZE
  let cellTop : ℚ := r * CELL_SIZE
  let cellBottom : ℚ := (r + 1) * CELL_SIZE
  (!wallOpen m r c .north && decide (z - radius < cellTop) &&
      decide (z + radius > cellTop - WALL_THICKNESS) &&
      decide (x + radius > cellLeft) && decide (x - radius < cellRight)) ||
  (!wallOpen m r c .south && decide (z + radius > cellBottom) &&
      decide (z - radius < cellBottom + WALL_THICKNESS) &&
      decide (x + radius > cellLeft) && decide (x - radius < cellRight)) ||
  (!wallOpen m r c .west && decide (x - radius < cellLeft) &&
      decide (x + radius > cellLeft - WALL_THICKNESS) &&
      decide (z + radius > cellTop) && decide (z - radius < cellBottom)) ||
  (!wallOpen m r c .east && decide (x + radius > cellRight) &&
      decide (x - radius < cellRight + WALL_THICKNESS) &&
      decide (z + radius > cellTop) && decide (z - radius < cellBottom))

/-- `collision.js` `isBlocked(maze, x, z, radius)`: compute the grid cells
overlapped by the circle (floor division by `CELL_SIZE`), treat any
out-of-bounds cell as solid, and test each overlapped cell's closed wall
segments.  `if (!maze) return false` is the `none` case. -/
def isBlocked (maze : Option Maze) (x z radius : ℚ) : Bool :=
  match maze with
  | none => false
  | some m =>
    let minC := ⌊(x - radius) / CELL_SIZE⌋
    let maxC := ⌊(x + radius) / CELL_SIZE⌋
    let minR := ⌊(z - radius) / CELL_SIZE⌋
    let maxR := ⌊(z + radius) / CELL_SIZE⌋
    (rangeInt minR maxR).any fun r =>
      (rangeInt minC maxC).any fun c =>
        if r < 0 ∨ (m.rows : Int) ≤ r ∨ c < 0 ∨ (m.cols : Int) ≤ c then true
        else blockedInCell m r c x z radius

/-- The cylinder test of `collision.js` `raycastPlayers` (lines 138-148):
horizontal distance to the player under `hitRadius` and sample height within
`(player.y - 1.5, player.y + 0.5)`. -/
def cylinderHit (px py pz hitRadius : ℚ) (pl : PlayerState) : Bool :=
  let dx := px - pl.x
  let dz := pz - pl.z
  decide (dx * dx + dz * dz < hitRadius * hitRadius) &&
    decide (py > pl.y - 3 / 2) && decide (py < pl.y + 1 / 2)

/-- The inner player scan of `raycastPlayers` at one sample point: the first
living, non-shooter player (in roster order) whose cylinder contains the
sample. -/
def pelletFind (players : List (String × PlayerState)) (shooterId : String)
    (px py pz hitRadius : ℚ) : Option (String × PlayerState) :=
  players.find? fun pr =>
    pr.1 != shooterId && pr.2.alive && cylinderHit px py pz hitRadius pr.2

/-- A raycast hit `{targetId, distance}`. -/
structure Hit where
  targetId : String
  distance : ℚ
deriving DecidableEq, Repr

/-- The sampling loop of `collision.js` `raycastPlayers`: at sample index
`k` the travelled distance is `k * step` (the JS accumulates `dist += step`,
which is exact in `ℚ`).  At each sample the wall-occlusion check runs first
(on a probe radius `0.05`); a blocked sample ends the cast with `null`.
`fuel` bounds the iteration count; `raycastPlayers` passes enough fuel that
the loop always exits through the `dist < maxRange` test when `step > 0`. -/
def raycastAux (origin dir : Vec3) (maxRange : ℚ)
    (players : List (String × PlayerState)) (shooterId : String)
    (maze : Option Maze) (step hitRadius : ℚ) : Nat → Nat → Option Hit
  | 0, _ => none
  | fuel + 1, k =>
    let dist : ℚ := k * step
    if dist < maxRange then
      let px := origin.x + dir.x * dist
      let py := origin.y + dir.y * dist
      let pz := origin.z + dir.z * dist
      if isBlocked maze px pz (1 / 20) then none
      else
        match pelletFind players shooterId px py pz hitRadius with
        | some pr => some ⟨pr.1, dist⟩
        | none => raycastAux origin dir maxRange players shooterId maze
            step hitRadius fuel (k + 1)
    else none

/-- `collision.js` `raycastPlayers` (with its default `step = 0.3`,
`hitRadius = 0.8` made explicit at call sites). -/
def raycastPlayers (origin dir : Vec3) (maxRange : ℚ)
    (players : List (String × PlayerState)) (shooterId : String)
    (maze : Option Maze) (step hitRadius : ℚ) : Option Hit :=
  raycastAux origin dir maxRange players shooterId maze step hitRadius
    (⌈maxRange / step⌉.toNat + 1) 0

/-- **C7 (amended).** If some sample point `k * step` within range is
wall-blocked, and no earlier sample already hit a player, the raycast
returns `null`: occlusion holds at the sampled points.  (As stated in the
spec — a closed wall strictly *between* origin and players always occludes —
the property fails: the 0.3 step can tunnel past the wall's ≈0.25-wide
blocked window; see the counterexample.) -/
theorem raycastPlayers_blocked_sample (origin dir : Vec3) (maxRange : ℚ)
    (players : List (String × PlayerState)) (shooterId : String)
    (maze : Option Maze) (step hitRadius : ℚ) (k : Nat)
    (hstep : 0 ≤ step)
    (hk : (k : ℚ) * step < maxRange)
    (hblocked : isBlocked maze (origin.x + dir.x * (k * step))
        (origin.z + dir.z * (k * step)) (1 / 20) = true)
    (hnohit : ∀ j : Nat, j < k →
      pelletFind players shooterId (origin.x + dir.x * (j * step))
        (origin.y + dir.y * (j * step)) (origin.z + dir.z * (j * step))
        hitRadius = none) :
    raycastPlayers origin dir maxRange players shooterId maze step hitRadius
      = none := by
  have main : ∀ (fuel i : Nat), i ≤ k →
      raycastAux origin dir maxRange players shooterId maze step hitRadius
        fuel i = none := by
    intro fuel
    induction fuel with
    | zero => intro i _; rfl
    | succ fuel ih =>
      intro i hik
      unfold raycastAux
      have hdist : (i : ℚ) * step < maxRange := by
        refine lt_of_le_of_lt ?_ hk
        have : (i : ℚ) ≤ (k : ℚ) := by exact_mod_cast hik
        exact mul_le_mul_of_nonneg_right this hstep
      rw [if_pos hdist]
      by_cases hb : isBlocked maze (origin.x + dir.x * (i * step))
          (origin.z + dir.z * (i * step)) (1 / 20) = true
      · rw [if_pos hb]
      · rw [if_neg hb]
        have hik' : i < k := by
          rcases Nat.lt_or_ge i k with h | h
          · exact h
          · exact absurd hblocked (by rw [Nat.le_antisymm hik h] at hb; exact hb)
        rw [hnohit i hik']
        exact ih (i + 1) hik'
  exact main _ 0 (Nat.zero_le k)

/-- The `1 × 2` maze whose every wall is closed, in particular the shared
wall between cells `(0,0)` and `(0,1)` on the plane `x = 6`. -/
def maze12 : Maze := ⟨1, 2, ∅⟩

section RatEval

/- Mathlib marks the `ℚ` field operations `[irreducible]` (an elaborator
performance hint only); re-allow unfolding locally so `decide` can evaluate
the collision arithmetic on concrete rationals. -/
set_option allowUnsafeReducibility true

attribute [local semireducible] Rat.add Rat.sub Rat.mul Rat.div Rat.inv Rat.neg

/-- The player sitting behind the wall in the C7 scenario, at
`(8.02, 2, 3)` in cell `(0,1)` of `maze12`. -/
def playerB : PlayerState :=
  { id := "B", name := "B", x := 401 / 50, y := 2, z := 3, yaw := 0,
    pitch := 0, health := 100, score := 0, deaths := 0, weapon := "rifle",
    sprinting := false, alive := true, level := 0, exitTriggered := false,
    persistentId := none }

/-- Witness for the amended C7: a ray from `x = 5.7` along `+x` lands its
sample `k = 1` at `x = 6.0`, inside the wall's blocked window, so the cast
returns `null` even though `playerB` sits in range behind the wall. -/
theorem raycastPlayers_blocked_sample_witness :
    ((0 : ℚ) ≤ 3 / 10 ∧ ((1 : Nat) : ℚ) * (3 / 10) < 60 ∧
      isBlocked (some maze12)
        ((⟨57 / 10, 2, 3⟩ : Vec3).x + (⟨1, 0, 0⟩ : Vec3).x * (((1 : Nat) : ℚ) * (3 / 10)))
        ((⟨57 / 10, 2, 3⟩ : Vec3).z + (⟨1, 0, 0⟩ : Vec3).z * (((1 : Nat) : ℚ) * (3 / 10)))
        (1 / 20) = true) ∧
    raycastPlayers ⟨57 / 10, 2, 3⟩ ⟨1, 0, 0⟩ 60 [("B", playerB)] "A"
      (some maze12) (3 / 10) (4 / 5) = none :=
  ⟨⟨by norm_num, by norm_num, by decide⟩,
    raycastPlayers_blocked_sample ⟨57 / 10, 2, 3⟩ ⟨1, 0, 0⟩ 60 [("B", playerB)]
      "A" (some maze12) (3 / 10) (4 / 5) 1 (by norm_num) (by norm_num)
      (by decide) (by decide)⟩

/-- **C7 counterexample.** The closed wall on the plane `x = 6` of `maze12`
lies strictly between the origin `(0.22, 2, 3)` and the only player
(`playerB` at `x = 8.02`, within the 60-unit range) along the `+x` ray, yet
`raycastPlayers` reports a hit on that player at distance `7.2`: the 0.3
sampling step jumps from `x = 5.92` to `x = 6.22`, straddling the wall's
blocked window `[5.95, 6.20)`, so the ray tunnels through the closed wall. -/
theorem raycastPlayers_occlusion_cex :
    ((0, 0), Dir.east) ∉ maze12.openW ∧ ((0, 1), Dir.west) ∉ maze12.openW ∧
    (⟨11 / 50, 2, 3⟩ : Vec3).x < 6 ∧ (6 : ℚ) < playerB.x ∧
    playerB.x - (⟨11 / 50, 2, 3⟩ : Vec3).x < 60 ∧
    raycastPlayers ⟨11 / 50, 2, 3⟩ ⟨1, 0, 0⟩ 60 [("B", playerB)] "A"
      (some maze12) (3 / 10) (4 / 5) = some ⟨"B", 36 / 5⟩ := by
  refine ⟨by decide, by decide, by norm_num, by norm_num [playerB],
    by norm_num [playerB], ?_⟩
  decide

end RatEval

/-! ## Rooms and the server registry (`room.js`, `server.js`)

JS `Map`s are modelled as insertion-ordered association lists: `get` is the
first match, `set` overwrites in place or appends, `delete` filters, and
iteration follows list order — exactly the JS `Map` iteration contract. -/

/-- `Map.get`. -/
def mapGet {α : Type} (l : List (String × α)) (k : String) : Option α :=
  (l.find? fun pr => pr.1 == k).map fun pr => pr.2

/-- `Map.set`: replace in place if the key exists, else append. -/
def mapSet {α : Type} (l : List (String × α)) (k : String) (v : α) :
    List (String × α) :=
  if l.any fun pr => pr.1 == k then
    l.map fun pr => if pr.1 == k then (k, v) else pr
  else l ++ [(k, v)]

/-- `Map.delete`. -/
def mapErase {α : Type} (l : List (String × α)) (k : String) :
    List (String × α) :=
  l.filter fun pr => !(pr.1 == k)

/-- One `LEVELS` entry of `room.js`. -/
structure LevelDef where
  rows : Nat
  cols : Nat
  enemies : Nat
deriving DecidableEq, Repr

/-- `LEVELS` of `room.js`. -/
def LEVELS : List LevelDef :=
  [⟨6, 6, 3⟩, ⟨6, 6, 5⟩, ⟨6, 6, 8⟩, ⟨6, 6, 12⟩, ⟨6, 6, 16⟩]

/-- An enemy placement record `{id, x, z, hp}`. -/
structure Enemy where
  id : String
  x : ℚ
  z : ℚ
  hp : Int
deriving DecidableEq, Repr

/-- A respawn queue entry `{playerId, respawnAt}` (timestamps in ms). -/
structure RespawnEntry where
  playerId : String
  respawnAt : Int
deriving DecidableEq, Repr

/-- Room state: `'waiting' | 'playing'`. -/
inductive RoomState where
  | waiting | playing
deriving DecidableEq, Repr

/-- A `room.js` `Room`.  `playerEnemies` is created lazily in JS
(`if (!this.playerEnemies) this.playerEnemies = new Map()`); it is modelled
as always present, empty until first written. -/
structure Room where
  id : String
  name : String
  maxPlayers : Int
  creatorId : Option String
  players : List (String × PlayerState)
  state : RoomState
  currentLevel : Nat
  flatArena : Bool
  maze : Option Maze
  startCell : Option Cell
  exitCell : Option Cell
  respawnQueue : List RespawnEntry
  playerEnemies : List (String × List (Nat × List Enemy))
deriving DecidableEq

/-- `room.js` `addPlayer(id, name, weapon)` (lines 69-92).  The call site in
`server.js` passes `socket.persistentId` as a fourth argument, but this
signature has only three parameters, so the token is dropped and the record
carries `persistentId := none` (reading the absent property yields
`undefined`).  `name || 'Player'` and `weapon || 'rifle'` treat the empty
string as falsy. -/
def Room.addPlayer (r : Room) (id name weapon : String) : Room :=
  let player : PlayerState :=
    { id := id, name := if name = "" then "Player" else name,
      x := 0, y := 2, z := 0, yaw := 0, pitch := 0, health := 100,
      score := 0, deaths := 0,
      weapon := if weapon = "" then "rifle" else weapon,
      sprinting := false, alive := true, level := 0,
      exitTriggered := false, persistentId := none }
  { r with
    playerEnemies := mapSet r.playerEnemies id []
    players := mapSet r.players id player }

/-- `room.js` `removePlayer(id)` (lines 98-105): drop the roster entry; if
the creator left, the first remaining player (or `null`) becomes creator. -/
def Room.removePlayer (r : Room) (id : String) : Room :=
  let players := mapErase r.players id
  let creatorId :=
    if r.creatorId = some id then
      match players.head? with
      | some pr => some pr.1
      | none => none
    else r.creatorId
  { r with players := players, creatorId := creatorId }

/-- `room.js` `get isEmpty()`. -/
def Room.isEmpty (r : Room) : Bool := r.players.isEmpty

/-- `room.js` `_cellToWorld(r, c)`: world center of a cell. -/
def cellToWorld (cell : Cell) : ℚ × ℚ :=
  (cell.2 * CELL_SIZE + CELL_SIZE / 2, cell.1 * CELL_SIZE + CELL_SIZE / 2)

/-- `room.js` `queueRespawn(playerId, delayMs)` (lines 368-373);
`respawnAt = Date.now() + delayMs`, with the clock passed explicitly. -/
def Room.queueRespawn (r : Room) (playerId : String) (delayMs now : Int) :
    Room :=
  { r with respawnQueue :=
      r.respawnQueue ++ [⟨playerId, now + delayMs⟩] }

/-- Manhattan distance between an occupied cell (computed from a world
position by floor division, hence an integer pair) and a grid cell. -/
def distOI (o : Int × Int) (cell : Cell) : Nat :=
  (o.1 - (cell.1 : Int)).natAbs + (o.2 - (cell.2 : Int)).natAbs

/-- `room.js` `getStartSpawn()` (lines 253-291): prefer a shuffled cell at
Manhattan distance ≥ `SPAWN_SPACING` from every living player's cell, else
fall back to the first shuffled cell.  `shuffle` is the outcome of the
Fisher-Yates pass; for the empty grid (unreachable for generated mazes) the
fallback defaults to cell `(0,0)`. -/
def Room.getStartSpawn (r : Room) (shuffle : List Cell → List Cell) :
    ℚ × ℚ :=
  match r.maze with
  | none => (3, 3)
  | some m =>
    let occupied : List (Int × Int) := r.players.filterMap fun pr =>
      if pr.2.alive then some (⌊pr.2.z / CELL_SIZE⌋, ⌊pr.2.x / CELL_SIZE⌋)
      else none
    let cells := shuffle (allCells m.rows m.cols)
    match cells.find? fun cell =>
        !(occupied.any fun o => distOI o cell < SPAWN_SPACING) with
    | some cell => cellToWorld cell
    | none => cellToWorld (cells.headD (0, 0))

/-- One `playerRespawned` record returned by `processRespawns`. -/
structure RespawnedEv where
  playerId : String
  x : ℚ
  y : ℚ
  z : ℚ
deriving DecidableEq, Repr

/-- The backward scan of `room.js` `processRespawns` (lines 298-325): the JS
iterates the queue from the last entry to the first, resolving entries whose
deadline has passed (restoring `health = 100`, `alive = true` at a fresh
spawn) and splicing them out.  `queueRev` is the reversed queue; kept
entries are re-prepended so the remaining queue keeps its original order. -/
def processRespawnsAux (now : Int) (shuffle : List Cell → List Cell) :
    List RespawnEntry → Room → Room × List RespawnedEv
  | [], r => (r, [])
  | e :: rest, r =>
    if now ≥ e.respawnAt then
      match mapGet r.players e.playerId with
      | some player =>
        let pos := r.getStartSpawn shuffle
        let player1 := { player with
          x := pos.1, y := 2, z := pos.2, health := 100, alive := true }
        let r1 := { r with players := mapSet r.players e.playerId player1 }
        let out := processRespawnsAux now shuffle rest r1
        (out.1, ⟨e.playerId, pos.1, 2, pos.2⟩ :: out.2)
      | none => processRespawnsAux now shuffle rest r
    else
      let out := processRespawnsAux now shuffle rest r
      ({ out.1 with respawnQueue := out.1.respawnQueue ++ [e] }, out.2)

/-- `room.js` `processRespawns()`. -/
def Room.processRespawns (r : Room) (now : Int)
    (shuffle : List Cell → List Cell) : Room × List RespawnedEv :=
  processRespawnsAux now shuffle r.respawnQueue.reverse
    { r with respawnQueue := [] }

/-- `room.js` `_generateEnemyPositions(rows, cols, count, spawnCandidates)`
(lines 331-361): shuffle the cells, skip spawn-candidate cells, and place
`count` enemies `{id: "e<n>", x, z, hp: 30}` at cell centers. -/
def generateEnemyPositions (rows cols count : Nat)
    (spawnCandidates : List Cell) (shuffle : List Cell → List Cell) :
    List Enemy :=
  let cells := shuffle (allCells rows cols)
  (((cells.filter fun c => decide (c ∉ spawnCandidates)).take count).enum.map
    fun pr =>
      let world := cellToWorld pr.2
      { id := "e" ++ toString (pr.1 + 1), x := world.1, z := world.2,
        hp := 30 })

/-- An all-open "arena" grid (`room.js` lines 197-205 and 422-434). -/
def openArena (rows cols : Nat) : Maze :=
  ⟨rows, cols, cellsFinset rows cols ×ˢ
    ({Dir.north, Dir.south, Dir.east, Dir.west} : Finset Dir)⟩

/-- `Math.ceil(Math.sqrt(a / b))` for `0 < a`, `0 < b`: the least `n` with
`n² · b ≥ a`.  Searching `0..a` suffices since `a² · b ≥ a`. -/
def ceilSqrtDiv (a b : Nat) : Nat :=
  ((List.range (a + 1)).find? fun n => a ≤ n * n * b).getD 0

/-- `room.js` `_scaledMazeSize()` (lines 128-141). -/
def Room.scaledMazeSize (r : Room) : Nat × Nat :=
  let base := LEVELS.getD r.currentLevel ⟨6, 6, 3⟩
  let neededCells : Int := r.maxPlayers * (SPAWN_SPACING * SPAWN_SPACING)
  let baseCells : Int := base.rows * base.cols
  if neededCells ≤ baseCells then (base.rows, base.cols)
  else
    let scale := ceilSqrtDiv neededCells.toNat baseCells.toNat
    (base.rows * scale, base.cols * scale)

/-- The oracles standing for the random choices a room start consumes: the
maze generator's neighbour picks, the spawn-cell shuffle, and one enemy-cell
shuffle per call of `_generateEnemyPositions`. -/
structure GameOracles where
  mazeRng : Nat → Nat
  spawnShuffle : List Cell → List Cell
  enemyShuffle : Nat → List Cell → List Cell
  respawnShuffle : List Cell → List Cell

/-- `room.js` `startGame()` (lines 193-245): generate the maze (or arena),
fix `startCell`/`exitCell` at opposite corners, switch to `playing`, pick
spaced spawns for all `maxPlayers` slots, cache per-player enemy layouts for
each player's current level, and place every roster member on a spawn slot
with health and aim reset. -/
def Room.startGame (r : Room) (g : GameOracles) : Room :=
  let dims := r.scaledMazeSize
  let rows := dims.1
  let cols := dims.2
  let maze := if r.flatArena then openArena rows cols
    else generateMaze rows cols g.mazeRng
  let spawns := pickSpacedSpawns r.maxPlayers.toNat
    (g.spawnShuffle (allCells rows cols))
  let playerEnemies := (r.players.enum).foldl
    (fun (acc : List (String × List (Nat × List Enemy))) pr =>
      let level := pr.2.2.level
      let count := (LEVELS.getD (min level (LEVELS.length - 1)) ⟨6, 6, 3⟩).enemies
      let eps := generateEnemyPositions rows cols count spawns
        (g.enemyShuffle pr.1)
      let m := (mapGet acc pr.2.1).getD []
      mapSet acc pr.2.1 (if m.any fun e => e.1 == level then
          m.map fun e => if e.1 == level then (level, eps) else e
        else m ++ [(level, eps)]))
    r.playerEnemies
  let players := r.players.enum.map fun pr =>
    let cell := spawns.getD (pr.1 % spawns.length) (0, 0)
    let pos := cellToWorld cell
    let p1 := { pr.2.2 with
      x := pos.1, y := 2, z := pos.2, yaw := 0, pitch := 0, health := 100,
      alive := true }
    (pr.2.1, p1)
  { r with
    maze := some maze, startCell := some (0, 0),
    exitCell := some (rows - 1, cols - 1), state := .playing,
    playerEnemies := playerEnemies, players := players }

/-- The lobby info record of `room.js` `getInfo()`. -/
structure RoomInfo where
  id : String
  name : String
  playerCount : Nat
  maxPlayers : Int
  state : RoomState
  creatorId : Option String
  flatArena : Bool
deriving DecidableEq, Repr

/-- `room.js` `getInfo()`. -/
def Room.getInfo (r : Room) : RoomInfo :=
  ⟨r.id, r.name, r.players.length, r.maxPlayers, r.state, r.creatorId,
    r.flatArena⟩

/-- The per-player projection of `room.js` `getGameState()`. -/
structure PlayerView where
  id : String
  name : String
  x : ℚ
  y : ℚ
  z : ℚ
  yaw : ℚ
  pitch : ℚ
  health : Int
  score : Int
  deaths : Int
  weapon : String
  alive : Bool
deriving DecidableEq, Repr

/-- `room.js` `getGameState()`. -/
def Room.getGameState (r : Room) : List (String × PlayerView) :=
  r.players.map fun pr =>
    (pr.1, ⟨pr.2.id, pr.2.name, pr.2.x, pr.2.y, pr.2.z, pr.2.yaw, pr.2.pitch,
      pr.2.health, pr.2.score, pr.2.deaths, pr.2.weapon, pr.2.alive⟩)

/-- The `playerLevelAdvanced` payload `{maze, startCell, exitCell, level,
enemies}` of `advancePlayerLevel`. -/
structure LevelAdvance where
  maze : Maze
  startCell : Cell
  exitCell : Cell
  level : Nat
  enemies : List Enemy
deriving DecidableEq

/-- `room.js` `advancePlayerLevel(playerId, emitFn)` (lines 414-460):
increment the player's personal level, generate a fresh maze (or arena)
sized for that level, cache a new enemy layout, build the payload for that
player alone, and teleport them to the new start cell. -/
def Room.advancePlayerLevel (r : Room) (playerId : String)
    (rng : Nat → Nat) (enemyShuffle : List Cell → List Cell) :
    Room × Option LevelAdvance :=
  match mapGet r.players playerId with
  | none => (r, none)
  | some player =>
    let level := player.level + 1
    let base := LEVELS.getD (min level (LEVELS.length - 1)) ⟨6, 6, 3⟩
    let rows := base.rows
    let cols := base.cols
    let maze := if r.flatArena then openArena rows cols
      else generateMaze rows cols rng
    let startCell : Cell := (0, 0)
    let exitCell : Cell := (rows - 1, cols - 1)
    let eps := generateEnemyPositions rows cols base.enemies [] enemyShuffle
    let m := (mapGet r.playerEnemies playerId).getD []
    let m1 := if m.any fun e => e.1 == level then
        m.map fun e => if e.1 == level then (level, eps) else e
      else m ++ [(level, eps)]
    let world := cellToWorld startCell
    let player1 := { player with level := level, x := world.1, z := world.2 }
    let r1 := { r with
      playerEnemies := mapSet r.playerEnemies playerId m1,
      players := mapSet r.players playerId player1 }
    (r1, some ⟨maze, startCell, exitCell, level, eps⟩)

/-- `room.js` `_isExitPos(x, z)` (lines 397-407): inside the exit cell, or
within `0.4 · CELL_SIZE` of its center.  `server.js` never manages to call
it — it invokes the non-existent `room._isPlayerExitPos` instead. -/
def Room.isExitPos (r : Room) (x z : ℚ) : Bool :=
  match r.exitCell, r.maze with
  | some exitCell, some _ =>
    let cr := ⌊z / CELL_SIZE⌋
    let cc := ⌊x / CELL_SIZE⌋
    if cr = (exitCell.1 : Int) ∧ cc = (exitCell.2 : Int) then true
    else
      let world := cellToWorld exitCell
      let dx := x - world.1
      let dz := z - world.2
      let thresh := CELL_SIZE * (2 / 5)
      decide (dx * dx + dz * dz < thresh * thresh)
  | _, _ => false

/-! ## The message-dispatch surface of `server.js` -/

/-- Where an emission goes: one socket (`io.to(id)` / `socket.emit`), every
room member but the sender (`socket.to(room)`), the whole room
(`io.to(room)`), or every connected socket (`io.emit`). -/
inductive Target where
  | client (id : String)
  | othersInRoom (roomId : String) (senderId : String)
  | room (roomId : String)
  | all
deriving DecidableEq, Repr

/-- The server→client payloads the embedded handlers emit. -/
inductive Payload where
  | roomList (rooms : List RoomInfo)
  | roomJoined (roomId : String) (info : RoomInfo)
      (players : List (String × PlayerView)) (isCreator : Bool)
  | playerJoined (id : String) (name : String)
  | playerLeft (id : String)
  | roomUpdated (info : RoomInfo)
  | gameStarted (maze : Option Maze) (startCell exitCell : Option Cell)
      (level : Nat) (players : List (String × PlayerView))
  | playerLevelAdvanced (adv : LevelAdvance)
  | playerMoved (id : String) (x y z yaw pitch : ℚ) (sprinting : Bool)
  | playerShot (id : String) (weapon : String)
  | playerDamaged (health : Int) (attackerId : String)
  | hitConfirmed (targetId : String) (damage : Int) (targetHealth : Int)
  | playerKilled (killerId killerName targetId targetName : String)
      (killerScore : Int)
  | playerRespawned (id : String) (x y z : ℚ)
  | positionCorrection (x y z : ℚ)
  | gameWon (bossKillerId : String)
  | gameState (players : List (String × PlayerView))
  | enemyUpdate (level : Nat) (enemies : List Enemy)
  | errorMsg (message : String)
deriving DecidableEq

/-- One emission. -/
structure Emit where
  target : Target
  payload : Payload
deriving DecidableEq

/-- The module-level mutable registries of `server.js` (`rooms`,
`playerRooms`, `playerNames`, `disconnectTimers`); a pending disconnect
timer is recorded by the persistent id it would clean up. -/
structure ServerState where
  rooms : List (String × Room)
  playerRooms : List (String × String)
  playerNames : List (String × String)
  disconnectTimers : List String
deriving DecidableEq

/-- `server.js` `_broadcastRoomList()` (lines 608-614). -/
def broadcastRoomList (st : ServerState) : Emit :=
  ⟨.all, .roomList (st.rooms.map fun pr => pr.2.getInfo)⟩

/-- `server.js` `_leaveCurrentRoom(socket)` (lines 582-606). -/
def leaveCurrentRoom (st : ServerState) (sid : String) :
    ServerState × List Emit :=
  match mapGet st.playerRooms sid with
  | none => (st, [])
  | some roomId =>
    match mapGet st.rooms roomId with
    | none => ({ st with playerRooms := mapErase st.playerRooms sid }, [])
    | some room =>
      let room1 := room.removePlayer sid
      let left : Emit := ⟨.othersInRoom roomId sid, .playerLeft sid⟩
      if room1.isEmpty then
        let st1 := { st with
          rooms := mapErase st.rooms roomId,
          playerRooms := mapErase st.playerRooms sid }
        (st1, [left])
      else
        let st1 := { st with
          rooms := mapSet st.rooms roomId room1,
          playerRooms := mapErase st.playerRooms sid }
        (st1, [left, ⟨.othersInRoom roomId sid, .roomUpdated room1.getInfo⟩])

/-- The connection handler's reattach pass over one room (`server.js` lines
96-113): find the first roster entry carrying this persistent token under a
different socket id, delete the old key and re-insert the player under the
new id.  Returns the old id when a rebind happened. -/
def reattachRoom (room : Room) (sid pid : String) :
    Room × Option (String × String) :=
  match room.players.find? fun pr =>
      pr.2.persistentId == some pid && pr.1 != sid with
  | some pr =>
    let player1 := { pr.2 with id := sid }
    let room1 := { room with
      players := mapSet (mapErase room.players pr.1) sid player1 }
    (room1, some (pr.1, pr.2.name))
  | none => (room, none)

/-- `server.js` `io.on('connection')` (lines 81-115): cancel a pending
grace-cleanup timer for this token, then try to reattach the token's player
record in every room to the new socket id. -/
def onConnection (st : ServerState) (sid : String) (pid : Option String) :
    ServerState :=
  match pid with
  | none => st
  | some p =>
    let st1 := { st with disconnectTimers := st.disconnectTimers.erase p }
    st1.rooms.foldl
      (fun acc pr =>
        let out := reattachRoom pr.2 sid p
        match out.2 with
        | some old =>
          { acc with
            rooms := mapSet acc.rooms pr.1 out.1,
            playerRooms := mapSet (mapErase acc.playerRooms old.1) sid pr.2.id,
            playerNames := mapSet (mapErase acc.playerNames old.1) sid old.2 }
        | none => acc)
      st1

/-- `server.js` `socket.on('disconnect')` (lines 553-575): players with a
persistent token get a 15 s grace timer keyed by the token; others are
cleaned up immediately. -/
def onDisconnect (st : ServerState) (sid : String) (pid : Option String) :
    ServerState × List Emit :=
  match pid with
  | some p => ({ st with disconnectTimers := st.disconnectTimers ++ [p] }, [])
  | none =>
    let out := leaveCurrentRoom st sid
    let st1 := { out.1 with playerNames := mapErase out.1.playerNames sid }
    (st1, out.2 ++ [broadcastRoomList st1])

/-- The body of the 15 s grace timer (`server.js` lines 560-568), run only
if no reconnection cancelled it. -/
def graceCleanup (st : ServerState) (sid pid : String) :
    ServerState × List Emit :=
  let out := leaveCurrentRoom st sid
  let st1 := { out.1 with
    playerNames := mapErase out.1.playerNames sid,
    disconnectTimers := out.1.disconnectTimers.erase pid }
  (st1, out.2 ++ [broadcastRoomList st1])

/-- `server.js` `socket.on('joinRoom')` (lines 180-217). -/
def joinRoomHandler (st : ServerState) (sid roomId : String) :
    ServerState × List Emit :=
  match mapGet st.rooms roomId with
  | none => (st, [⟨.client sid, .errorMsg "Room not found"⟩])
  | some room =>
    if (room.players.length : Int) ≥ room.maxPlayers then
      (st, [⟨.client sid, .errorMsg "Room is full"⟩])
    else if room.state = .playing then
      (st, [⟨.client sid, .errorMsg "Game already in progress"⟩])
    else
      let out := leaveCurrentRoom st sid
      let st1 := out.1
      -- `room` is the same object the registry still holds (mutations in
      -- `_leaveCurrentRoom` were visible through it), so re-read it; if the
      -- room was deleted there, the JS keeps mutating the unregistered
      -- object, which the registry no longer sees.
      let room1 := (mapGet st1.rooms roomId).getD (room.removePlayer sid)
      let playerName := (mapGet st1.playerNames sid).getD "Player"
      let room2 := room1.addPlayer sid playerName "rifle"
      let st2 := { st1 with
        rooms := if (mapGet st1.rooms roomId).isSome then
            mapSet st1.rooms roomId room2
          else st1.rooms,
        playerRooms := mapSet st1.playerRooms sid roomId }
      (st2,
        out.2 ++
        [⟨.client sid, .roomJoined roomId room2.getInfo room2.getGameState
            (room2.creatorId = some sid)⟩,
         ⟨.othersInRoom roomId sid, .playerJoined sid playerName⟩,
         broadcastRoomList st2])

/-- `server.js` `socket.on('startGame')` (lines 257-293). -/
def startGameHandler (st : ServerState) (sid : String) (g : GameOracles) :
    ServerState × List Emit :=
  match mapGet st.playerRooms sid with
  | none => (st, [])
  | some roomId =>
    match mapGet st.rooms roomId with
    | none => (st, [])
    | some room =>
      if room.creatorId ≠ some sid then
        (st, [⟨.client sid,
          .errorMsg "Only the room creator can start the game"⟩])
      else if room.state = .playing then (st, [])
      else
        let room1 := room.startGame g
        let st1 := { st with rooms := mapSet st.rooms roomId room1 }
        let perPlayer : List Emit := room1.players.map fun pr =>
          let level := pr.2.level
          let enemies :=
            ((mapGet room1.playerEnemies pr.1).getD []).lookup level |>.getD []
          ⟨.client pr.1, .playerLevelAdvanced
            ⟨(room1.maze).getD (openArena 0 0), (room1.startCell).getD (0, 0),
             (room1.exitCell).getD (0, 0), level, enemies⟩⟩
        (st1,
          [⟨.room roomId, .gameStarted room1.maze room1.startCell
              room1.exitCell room1.currentLevel room1.getGameState⟩] ++
            perPlayer ++ [broadcastRoomList st1])

/-- The client move message `{x, y, z, yaw, pitch, sprinting}`.  The
handler's `Number(..) || fallback` coercions are identity on rational
inputs except that a falsy (zero) `y` falls back to `2`. -/
structure MoveData where
  x : ℚ
  y : ℚ
  z : ℚ
  yaw : ℚ
  pitch : ℚ
  sprinting : Bool
deriving DecidableEq, Repr

/-- The anti-teleport bound `maxMoveDist = 3.0` of the move handler. -/
def maxMoveDist : ℚ := 3

/-- `server.js` `socket.on('move')` (lines 296-374).  After the position
and orientation mutations succeed, line 344 calls
`room._isPlayerExitPos(player, x, z)` — `room.js` defines `_isExitPos` but
no `_isPlayerExitPos`, so the call raises `TypeError`, which the handler's
`try/catch` (line 371) swallows: the mutations persist, but the exit check
and the `playerMoved` broadcast (line 362) never run.  The embedding makes
that abort explicit by returning the mutated state with no emission. -/
def moveHandler (st : ServerState) (sid : String) (d : MoveData) :
    ServerState × List Emit :=
  match mapGet st.playerRooms sid with
  | none => (st, [])
  | some roomId =>
    match mapGet st.rooms roomId with
    | none => (st, [])
    | some room =>
      if room.state ≠ .playing then (st, [])
      else
        match mapGet room.players sid with
        | none => (st, [])
        | some player =>
          if player.alive = false then (st, [])
          else
            let newX := d.x
            let newZ := d.z
            let dx := newX - player.x
            let dz := newZ - player.z
            let distSq := dx * dx + dz * dz
            if distSq > maxMoveDist * maxMoveDist then
              (st, [⟨.client sid,
                .positionCorrection player.x player.y player.z⟩])
            else if isBlocked room.maze newX newZ (2 / 5) then
              (st, [⟨.client sid,
                .positionCorrection player.x player.y player.z⟩])
            else
              let player1 := { player with
                x := newX, z := newZ,
                y := if d.y = 0 then 2 else d.y,
                yaw := d.yaw, pitch := d.pitch, sprinting := d.sprinting }
              let room1 := { room with
                players := mapSet room.players sid player1 }
              -- `room._isPlayerExitPos` does not exist: TypeError, caught
              -- at line 371; nothing further runs.
              ({ st with rooms := mapSet st.rooms roomId room1 }, [])

/-- `WEAPON_DAMAGE[weapon] || 25` of `server.js` (lines 55-59, 407). -/
def WEAPON_DAMAGE (w : String) : Int :=
  if w = "rifle" then 25 else if w = "shotgun" then 15
  else if w = "pistol" then 20 else 25

/-- `WEAPON_RANGE[weapon] || 60` of `server.js` (lines 60-64, 406). -/
def WEAPON_RANGE (w : String) : ℚ :=
  if w = "rifle" then 60 else if w = "shotgun" then 25
  else if w = "pistol" then 45 else 60

/-- `WEAPON_PELLETS[weapon] || 1` of `server.js` (lines 65-69, 408). -/
def WEAPON_PELLETS (w : String) : Nat :=
  if w = "rifle" then 1 else if w = "shotgun" then 5
  else if w = "pistol" then 1 else 1

/-- `SCORE_PLAYER_KILL` of `server.js`. -/
def SCORE_PLAYER_KILL : Int := 10

/-- `SCORE_BOSS_KILL` of `server.js`. -/
def SCORE_BOSS_KILL : Int := 50

/-- The per-pellet hit resolution of the shoot handler (`server.js` lines
450-489), given the raycast outcome for this pellet: damage a living
target; on reaching 0 HP clamp health to 0, mark dead, count the death,
award the kill score, broadcast `playerKilled` and queue a 3 s respawn;
otherwise notify victim (`playerDamaged`) and shooter (`hitConfirmed`).
The shooter is the handler's `shooter` binding, always present in the
roster when this code runs (the handler returned at line 383 otherwise). -/
def resolvePelletHit (room : Room) (roomId shooterId : String)
    (hit : Option Hit) (damage : Int) (now : Int) : Room × List Emit :=
  match hit with
  | none => (room, [])
  | some h =>
    match mapGet room.players h.targetId with
    | none => (room, [])
    | some target =>
      if target.alive = false then (room, [])
      else
        let health1 := target.health - damage
        if health1 ≤ 0 then
          match mapGet room.players shooterId with
          | none => (room, [])
          | some shooter =>
            let target1 := { target with
              health := 0, alive := false, deaths := target.deaths + 1 }
            let shooter1 := { shooter with
              score := shooter.score + SCORE_PLAYER_KILL }
            let room1 := { room with
              players := mapSet (mapSet room.players h.targetId target1)
                shooterId shooter1 }
            let room2 := room1.queueRespawn h.targetId 3000 now
            (room2, [⟨.room roomId, .playerKilled shooterId shooter.name
              h.targetId target.name shooter1.score⟩])
        else
          let target1 := { target with health := health1 }
          ({ room with players := mapSet room.players h.targetId target1 },
           [⟨.client h.targetId, .playerDamaged health1 shooterId⟩,
            ⟨.client shooterId, .hitConfirmed h.targetId damage health1⟩])

/-- The pellet loop of the shoot handler (lines 428-489): resolve each
pellet's raycast outcome in order against the evolving room state.  The
per-pellet spread jitter and the raycast are summarized by the pellet's
`Option Hit` outcome list. -/
def shootPellets (room : Room) (roomId shooterId : String)
    (hits : List (Option Hit)) (damage : Int) (now : Int) :
    Room × List Emit :=
  hits.foldl
    (fun acc hit =>
      let out := resolvePelletHit acc.1 roomId shooterId hit damage now
      (out.1, acc.2 ++ out.2))
    (room, [])

/-- `server.js` `socket.on('bossKill')` (lines 505-550): award the boss
score, broadcast `gameWon`, then reset the room to `waiting` with maze
cleared and every player restored to `score 0, deaths 0, health 100,
alive`. -/
def bossKillHandler (st : ServerState) (sid : String) :
    ServerState × List Emit :=
  match mapGet st.playerRooms sid with
  | none => (st, [])
  | some roomId =>
    match mapGet st.rooms roomId with
    | none => (st, [])
    | some room =>
      if room.state ≠ .playing then (st, [])
      else
        match mapGet room.players sid with
        | none => (st, [])
        | some killer =>
          let killer1 := { killer with score := killer.score + SCORE_BOSS_KILL }
          let room1 := { room with players := mapSet room.players sid killer1 }
          let players2 := room1.players.map fun pr =>
            let p := pr.2
            (pr.1, { p with
              score := (0 : Int), deaths := (0 : Int), health := (100 : Int),
              alive := true })
          let room2 := { room1 with
            state := .waiting, maze := none, players := players2 }
          let st1 := { st with rooms := mapSet st.rooms roomId room2 }
          (st1, [⟨.room roomId, .gameWon sid⟩, broadcastRoomList st1])

/-- One room's share of the 50 ms GameLoop tick (`server.js` lines
621-666): skip non-playing rooms; process respawns and emit one
`playerRespawned` per resolved entry; then the periodic exit scan reaches
the first living, unflagged player and calls the non-existent
`room._isPlayerExitPos` — the `TypeError` propagates out of the interval
callback (only the process-level `uncaughtException` hook catches it), so
the `gameState` broadcast and the per-player enemy updates are skipped.
Only when no living unflagged player exists does the tick complete. -/
def tickRoom (room : Room) (now : Int)
    (shuffle : List Cell → List Cell) : Room × List Emit :=
  if room.state ≠ .playing then (room, [])
  else
    let out := room.processRespawns now shuffle
    let room1 := out.1
    let evs := out.2.map fun re =>
      (⟨.room room.id, .playerRespawned re.playerId re.x re.y re.z⟩ : Emit)
    if room1.players.any fun pr => pr.2.alive && !pr.2.exitTriggered then
      -- TypeError at the exit scan: tick aborted before the broadcast.
      (room1, evs)
    else
      let enemyEvs : List Emit := room1.playerEnemies.filterMap fun pr =>
        match mapGet room1.players pr.1 with
        | none => none
        | some player =>
          let level := player.level
          some ⟨.client pr.1,
            .enemyUpdate level ((pr.2.lookup level).getD [])⟩
      (room1,
        evs ++ [⟨.room room.id, .gameState room1.getGameState⟩] ++ enemyEvs)

/-! ### Association-list map lemmas -/

theorem mapGet_mapSet_self {α : Type} (l : List (String × α)) (k : String)
    (v : α) : mapGet (mapSet l k v) k = some v := by
  unfold mapGet mapSet
  by_cases hany : (l.any fun pr => pr.1 == k) = true
  · rw [if_pos hany]
    induction l with
    | nil => simp at hany
    | cons hd tl ih =>
      rcases Bool.eq_false_or_eq_true (hd.1 == k) with hk | hk
      · rw [List.map_cons, if_pos hk]
        rw [List.find?_cons_of_pos _ (by simp)]
        rfl
      · rw [List.map_cons, if_neg (by simp [hk])]
        rw [List.find?_cons_of_neg _ (by simp [hk])]
        refine ih ?_
        simpa [List.any_cons, hk] using hany
  · rw [if_neg hany]
    induction l with
    | nil => simp [List.find?]
    | cons hd tl ih =>
      simp only [List.any_cons, Bool.or_eq_true, not_or] at hany
      rw [List.cons_append, List.find?_cons_of_neg _ (by simpa using hany.1)]
      refine ih ?_
      simpa using hany.2

theorem mem_mapSet {α : Type} {l : List (String × α)} {k : String} {v : α}
    {pr : String × α} (h : pr ∈ mapSet l k v) : pr.2 = v ∨ pr ∈ l := by
  unfold mapSet at h
  split at h
  · rw [List.mem_map] at h
    obtain ⟨a, ha, heq⟩ := h
    by_cases hk : a.1 == k
    · rw [if_pos hk] at heq
      exact Or.inl (by rw [← heq])
    · rw [if_neg hk] at heq
      exact Or.inr (heq ▸ ha)
  · rw [List.mem_append] at h
    rcases h with h | h
    · exact Or.inr h
    · rw [List.mem_singleton] at h
      exact Or.inl (by rw [h])

/-! ### C6: the anti-teleport rejection path -/

/-- **C6.** For every move message whose claimed position is farther than
`maxMoveDist` from the player's last authoritative position (as a
squared-distance comparison), the handler leaves the server state — in
particular the player's authoritative state — unchanged, and emits exactly
one `positionCorrection` carrying the authoritative position to the moving
client, with no other emission. -/
theorem moveHandler_antiteleport (st : ServerState) (sid : String)
    (d : MoveData) (roomId : String) (room : Room) (player : PlayerState)
    (hpr : mapGet st.playerRooms sid = some roomId)
    (hr : mapGet st.rooms roomId = some room)
    (hplaying : room.state = RoomState.playing)
    (hp : mapGet room.players sid = some player)
    (halive : player.alive = true)
    (hfar : (d.x - player.x) * (d.x - player.x) +
        (d.z - player.z) * (d.z - player.z) > maxMoveDist * maxMoveDist) :
    moveHandler st sid d =
      (st, [⟨.client sid,
        .positionCorrection player.x player.y player.z⟩]) := by
  unfold moveHandler
  simp only [hpr, hr, hp, hplaying, halive]
  rw [if_neg (by simp), if_neg (by simp), if_pos hfar]

/-- The player of the concrete handler scenarios: `addPlayer`-shaped state
for socket `"A"`. -/
def c6Player : PlayerState :=
  { id := "A", name := "Alice", x := 0, y := 2, z := 0, yaw := 0, pitch := 0,
    health := 100, score := 0, deaths := 0, weapon := "rifle",
    sprinting := false, alive := true, level := 0, exitTriggered := false,
    persistentId := none }

/-- A playing one-player room for the move-handler scenarios (`maze` is
`null`, so the wall check passes everywhere). -/
def c6Room : Room :=
  { id := "1", name := "Game Room", maxPlayers := 8, creatorId := some "A",
    players := [("A", c6Player)], state := .playing, currentLevel := 0,
    flatArena := false, maze := none, startCell := none, exitCell := none,
    respawnQueue := [], playerEnemies := [("A", [])] }

/-- The registry holding `c6Room`. -/
def c6State : ServerState :=
  { rooms := [("1", c6Room)], playerRooms := [("A", "1")],
    playerNames := [("A", "Alice")], disconnectTimers := [] }

section HandlerEval

set_option allowUnsafeReducibility true

attribute [local semireducible] Rat.add Rat.sub Rat.mul Rat.div Rat.inv Rat.neg

/-- Witness for C6: a stationary player at the origin claims a move to
`x = 4`, sixteen squared units away against a bound of nine. -/
theorem moveHandler_antiteleport_witness :
    (mapGet c6State.playerRooms "A" = some "1" ∧
      mapGet c6State.rooms "1" = some c6Room ∧
      c6Room.state = RoomState.playing ∧
      mapGet c6Room.players "A" = some c6Player ∧
      c6Player.alive = true ∧
      ((4 : ℚ) - c6Player.x) * ((4 : ℚ) - c6Player.x) +
          ((0 : ℚ) - c6Player.z) * ((0 : ℚ) - c6Player.z) >
        maxMoveDist * maxMoveDist) ∧
    moveHandler c6State "A" ⟨4, 2, 0, 0, 0, false⟩ =
      (c6State, [⟨.client "A",
        .positionCorrection c6Player.x c6Player.y c6Player.z⟩]) :=
  ⟨⟨by decide, by decide, by decide, by decide, by decide, by decide⟩,
    moveHandler_antiteleport c6State "A" ⟨4, 2, 0, 0, 0, false⟩ "1" c6Room
      c6Player (by decide) (by decide) (by decide) (by decide) (by decide)
      (by decide)⟩

end HandlerEval

/-! ### C9: protocol-violation error paths mutate nothing -/

/-- **C9.** Joining a nonexistent, full or in-progress room, and starting a
game as a non-creator, each emit exactly one `error` message to the
offending client and leave the whole server state — rooms, rosters, mazes,
players, registries — exactly as before. -/
theorem errorPaths_no_mutation (st : ServerState) (sid : String)
    (g : GameOracles) :
    (∀ roomId, mapGet st.rooms roomId = none →
      joinRoomHandler st sid roomId =
        (st, [⟨.client sid, .errorMsg "Room not found"⟩])) ∧
    (∀ roomId room, mapGet st.rooms roomId = some room →
      (room.players.length : Int) ≥ room.maxPlayers →
      joinRoomHandler st sid roomId =
        (st, [⟨.client sid, .errorMsg "Room is full"⟩])) ∧
    (∀ roomId room, mapGet st.rooms roomId = some room →
      ¬ (room.players.length : Int) ≥ room.maxPlayers →
      room.state = RoomState.playing →
      joinRoomHandler st sid roomId =
        (st, [⟨.client sid, .errorMsg "Game already in progress"⟩])) ∧
    (∀ roomId room, mapGet st.playerRooms sid = some roomId →
      mapGet st.rooms roomId = some room →
      room.creatorId ≠ some sid →
      startGameHandler st sid g =
        (st, [⟨.client sid,
          .errorMsg "Only the room creator can start the game"⟩])) := by
  refine ⟨?_, ?_, ?_, ?_⟩
  · intro roomId h
    unfold joinRoomHandler
    simp only [h]
  · intro roomId room h hfull
    unfold joinRoomHandler
    simp only [h]
    rw [if_pos hfull]
  · intro roomId room h hfull hplaying
    unfold joinRoomHandler
    simp only [h]
    rw [if_neg hfull, if_pos hplaying]
  · intro roomId room hpr hr hne
    unfold startGameHandler
    simp only [hpr, hr]
    rw [if_pos hne]

/-- A full room (capacity 1, one member) for the C9 witness. -/
def c9RoomFull : Room :=
  { id := "2", name := "Full Room", maxPlayers := 1, creatorId := some "X",
    players := [("X", c6Player)], state := .waiting, currentLevel := 0,
    flatArena := false, maze := none, startCell := none, exitCell := none,
    respawnQueue := [], playerEnemies := [] }

/-- An in-progress room with creator `"C"` and member `"S"` for the C9
witness. -/
def c9RoomPlaying : Room :=
  { id := "3", name := "Busy Room", maxPlayers := 8, creatorId := some "C",
    players := [("C", c6Player), ("S", c6Player)], state := .playing,
    currentLevel := 0, flatArena := false, maze := none, startCell := none,
    exitCell := none, respawnQueue := [], playerEnemies := [] }

/-- Registry for the C9 witness: no room `"1"`, full room `"2"`, playing
room `"3"`; socket `"S"` is in room `"3"` and not its creator. -/
def c9State : ServerState :=
  { rooms := [("2", c9RoomFull), ("3", c9RoomPlaying)],
    playerRooms := [("S", "3")], playerNames := [],
    disconnectTimers := [] }

/-- Fixed oracles for scenarios that consume no randomness. -/
def demoOracles : GameOracles :=
  ⟨fun _ => 0, fun l => l, fun _ l => l, fun l => l⟩

/-- Witness for C9: each of the four error paths fires on `c9State` and
returns it unchanged. -/
theorem errorPaths_no_mutation_witness :
    (mapGet c9State.rooms "1" = none ∧
      mapGet c9State.rooms "2" = some c9RoomFull ∧
      mapGet c9State.rooms "3" = some c9RoomPlaying ∧
      mapGet c9State.playerRooms "S" = some "3" ∧
      c9RoomPlaying.creatorId ≠ some "S") ∧
    joinRoomHandler c9State "S" "1" =
      (c9State, [⟨.client "S", .errorMsg "Room not found"⟩]) ∧
    joinRoomHandler c9State "S" "2" =
      (c9State, [⟨.client "S", .errorMsg "Room is full"⟩]) ∧
    joinRoomHandler c9State "S" "3" =
      (c9State, [⟨.client "S", .errorMsg "Game already in progress"⟩]) ∧
    startGameHandler c9State "S" demoOracles =
      (c9State, [⟨.client "S",
        .errorMsg "Only the room creator can start the game"⟩]) :=
  ⟨⟨by decide, by decide, by decide, by decide, by decide⟩,
    (errorPaths_no_mutation c9State "S" demoOracles).1 "1" (by decide),
    (errorPaths_no_mutation c9State "S" demoOracles).2.1 "2" c9RoomFull
      (by decide) (by decide),
    (errorPaths_no_mutation c9State "S" demoOracles).2.2.1 "3" c9RoomPlaying
      (by decide) (by decide) (by decide),
    (errorPaths_no_mutation c9State "S" demoOracles).2.2.2 "3" c9RoomPlaying
      (by decide) (by decide) (by decide)⟩

/-! ### C1: the persistent-token rebind can never fire -/

/-- The `room.js` constructor (lines 33-58); the global `nextRoomId`
counter value is passed in as `id`. -/
def Room.create (id name : String) (maxPlayers : Int) (creatorId : String) :
    Room :=
  { id := id, name := name, maxPlayers := maxPlayers,
    creatorId := some creatorId, players := [], state := .waiting,
    currentLevel := 0, flatArena := false, maze := none, startCell := none,
    exitCell := none, respawnQueue := [], playerEnemies := [] }

/-- Room `"1"` after socket `"s1"` created it and joined (the `createRoom`
flow: constructor then `addPlayer(socket.id, name, 'rifle',
socket.persistentId)` — whose fourth argument `room.js` drops). -/
def c1Room : Room :=
  (Room.create "1" "Game Room" 8 "s1").addPlayer "s1" "Alice" "rifle"

/-- The registry before the disconnect/reconnect pair of the C1 scenario. -/
def c1State : ServerState :=
  { rooms := [("1", c1Room)], playerRooms := [("s1", "1")],
    playerNames := [("s1", "Alice")], disconnectTimers := [] }

/-- **C1 (bug).** `room.js` `addPlayer` ignores the persistent token that
`server.js` passes as its fourth argument, so no player record ever carries
one, and the reattach scan of the connection handler can never match: in
general any roster whose players were created by `addPlayer` (all
`persistentId = none`) is returned unchanged with no rebind; concretely,
after the player on socket `"s1"` with token `"tok"` disconnects and
reconnects as socket `"s2"` within the grace window, the pending cleanup
timer is cancelled and no `playerLeft` is emitted (as the claim says), but
the player record remains bound to the dead socket `"s1"` and the new
socket is attached to no room — the rebind the claim describes never
happens. -/
theorem reattach_never_rebinds :
    (∀ (room : Room) (sid pid : String),
      (∀ pr ∈ room.players, pr.2.persistentId = none) →
      reattachRoom room sid pid = (room, none)) ∧
    ((onDisconnect c1State "s1" (some "tok")).2 = [] ∧
      (onConnection (onDisconnect c1State "s1" (some "tok")).1 "s2"
          (some "tok")).disconnectTimers = [] ∧
      mapGet (onConnection (onDisconnect c1State "s1" (some "tok")).1 "s2"
          (some "tok")).playerRooms "s2" = none ∧
      ((mapGet (onConnection (onDisconnect c1State "s1" (some "tok")).1 "s2"
          (some "tok")).rooms "1").map fun r => r.players.map Prod.fst) =
        some ["s1"]) := by
  constructor
  · intro room sid pid h
    unfold reattachRoom
    have hf : (room.players.find? fun pr =>
        pr.2.persistentId == some pid && pr.1 != sid) = none := by
      rw [List.find?_eq_none]
      intro pr hpr
      simp [h pr hpr]
    rw [hf]
  · exact ⟨by decide, by decide, by decide, by decide⟩

/-! ### C2 and C3: the missing `_isPlayerExitPos` method -/

/-- `true` exactly on `gameState` emissions. -/
def isGameStateEmit (e : Emit) : Bool :=
  match e.payload with
  | .gameState _ => true
  | _ => false

/-- `true` exactly on `playerMoved` emissions. -/
def isPlayerMovedEmit (e : Emit) : Bool :=
  match e.payload with
  | .playerMoved _ _ _ _ _ _ _ => true
  | _ => false

section ServerEval

set_option allowUnsafeReducibility true

attribute [local semireducible] Rat.add Rat.sub Rat.mul Rat.div Rat.inv Rat.neg

/-- **C2 (bug).** An accepted move (here `(1, 2, 1)` from the origin:
two squared units moved against a bound of nine, and no maze to block)
updates the player's authoritative position and orientation, but the
handler then calls the non-existent `room._isPlayerExitPos`; the caught
`TypeError` aborts it before the `playerMoved` broadcast, so no event at
all is emitted — in particular no `playerMoved` reaches the other room
members, contrary to the claim. -/
theorem move_accepted_no_broadcast :
    (moveHandler c6State "A" ⟨1, 2, 1, 0, 0, false⟩).2 = [] ∧
    ((mapGet (moveHandler c6State "A" ⟨1, 2, 1, 0, 0, false⟩).1.rooms
        "1").bind fun r => mapGet r.players "A") =
      some { c6Player with x := 1, z := 1 } := by
  constructor
  · decide
  · decide

/-- The dead player of the C3 scenario, queued for respawn. -/
def c3Dead : PlayerState :=
  { c6Player with id := "B", alive := false, health := 0, deaths := 1 }

/-- A playing room with one living player (`"A"`) and a respawn entry for
`"B"` due at time `50`. -/
def c3Room : Room :=
  { c6Room with
    players := [("A", c6Player), ("B", c3Dead)],
    respawnQueue := [⟨"B", 50⟩] }

/-- **C3 (bug).** On a tick at time `100`, the respawn queue is processed
and `playerRespawned` emitted — step (1) of the claim holds — but the
periodic exit scan then calls the non-existent `room._isPlayerExitPos` on
the first living, unflagged player, and the `TypeError` aborts the interval
callback (only the process-level `uncaughtException` hook catches it): the
`gameState` broadcast of step (3) is never emitted. -/
theorem tick_aborts_before_broadcast :
    (tickRoom c3Room 100 (fun l => l)).2 =
      [⟨.room "1", .playerRespawned "B" 3 2 3⟩] ∧
    ((mapGet (tickRoom c3Room 100 (fun l => l)).1.players "B").map
        fun p => (p.health, p.alive)) = some (100, true) ∧
    ((tickRoom c3Room 100 (fun l => l)).2.any isGameStateEmit) = false := by
  refine ⟨by decide, by decide, by decide⟩

end ServerEval

/-! ### C8: per-pellet hit resolution and respawn -/

theorem mapGet_mapSet_ne {α : Type} (l : List (String × α)) (k k' : String)
    (v : α) (h : k' ≠ k) : mapGet (mapSet l k v) k' = mapGet l k' := by
  unfold mapGet mapSet
  have h1 : ∀ (l : List (String × α)),
      List.find? (fun pr => pr.1 == k')
          (l.map fun pr => if (pr.1 == k) = true then (k, v) else pr) =
        List.find? (fun pr => pr.1 == k') l := by
    intro l
    induction l with
    | nil => rfl
    | cons hd tl ih =>
      rw [List.map_cons]
      rcases Bool.eq_false_or_eq_true (hd.1 == k) with hk | hk
      · have hd1 : hd.1 = k := by simpa using hk
        have e1 : ((k, v).1 == k') = false := by simp [Ne.symm h]
        have e2 : (hd.1 == k') = false := by simp [hd1, Ne.symm h]
        rw [if_pos hk]
        simp only [List.find?, e1, e2]
        exact ih
      · rw [if_neg (by simp [hk])]
        rcases Bool.eq_false_or_eq_true (hd.1 == k') with hk' | hk'
        · simp only [List.find?, hk']
        · simp only [List.find?, hk']
          exact ih
  have h2 : ∀ (l : List (String × α)),
      List.find? (fun pr => pr.1 == k') (l ++ [(k, v)]) =
        List.find? (fun pr => pr.1 == k') l := by
    intro l
    induction l with
    | nil =>
      have e1 : ((k, v).1 == k') = false := by simp [Ne.symm h]
      simp only [List.nil_append, List.find?, e1]
    | cons hd tl ih =>
      rw [List.cons_append]
      rcases Bool.eq_false_or_eq_true (hd.1 == k') with hk' | hk'
      · simp only [List.find?, hk']
      · simp only [List.find?, hk']
        exact ih
  split
  · rw [h1]
  · rw [h2]

/-- **C8.** For a pellet whose raycast hit a living target: if the damage
leaves the target's health above zero, the health is reduced and exactly a
`playerDamaged` (to the victim) and a `hitConfirmed` (to the shooter) are
emitted — in particular no `playerKilled`; if it brings the health to zero
or below, the health is clamped to exactly `0`, the target dies, its death
count increments, the shooter's score increases by `SCORE_PLAYER_KILL = 10`,
a single `playerKilled` is broadcast to the whole room, and a respawn entry
with a 3000 ms delay is queued; and processing a due respawn entry restores
that player to `health = 100, alive = true` and emits one `playerRespawned`
at the fresh spawn position. -/
theorem shoot_hit_resolution (room : Room) (roomId shooterId targetId : String)
    (dist : ℚ) (damage now : Int) (target shooter : PlayerState)
    (htarget : mapGet room.players targetId = some target)
    (hshooter : mapGet room.players shooterId = some shooter)
    (hne : targetId ≠ shooterId)
    (halive : target.alive = true) :
    (0 < target.health - damage →
      (resolvePelletHit room roomId shooterId (some ⟨targetId, dist⟩) damage
          now).1.players =
        mapSet room.players targetId
          { target with health := target.health - damage } ∧
      (resolvePelletHit room roomId shooterId (some ⟨targetId, dist⟩) damage
          now).2 =
        [⟨.client targetId,
            .playerDamaged (target.health - damage) shooterId⟩,
         ⟨.client shooterId,
            .hitConfirmed targetId damage (target.health - damage)⟩]) ∧
    (target.health - damage ≤ 0 →
      mapGet (resolvePelletHit room roomId shooterId (some ⟨targetId, dist⟩)
          damage now).1.players targetId =
        some { target with
          health := 0, alive := false, deaths := target.deaths + 1 } ∧
      mapGet (resolvePelletHit room roomId shooterId (some ⟨targetId, dist⟩)
          damage now).1.players shooterId =
        some { shooter with score := shooter.score + SCORE_PLAYER_KILL } ∧
      (resolvePelletHit room roomId shooterId (some ⟨targetId, dist⟩) damage
          now).1.respawnQueue =
        room.respawnQueue ++ [⟨targetId, now + 3000⟩] ∧
      (resolvePelletHit room roomId shooterId (some ⟨targetId, dist⟩) damage
          now).2 =
        [⟨.room roomId, .playerKilled shooterId shooter.name targetId
          target.name (shooter.score + SCORE_PLAYER_KILL)⟩]) ∧
    (∀ (r : Room) (pid : String) (t now2 : Int)
      (shuffle : List Cell → List Cell) (p : PlayerState),
      r.respawnQueue = [⟨pid, t⟩] → now2 ≥ t →
      mapGet r.players pid = some p →
      ((mapGet (r.processRespawns now2 shuffle).1.players pid).map
          fun q => (q.health, q.alive)) = some (100, true) ∧
      (r.processRespawns now2 shuffle).2 =
        [⟨pid, (r.getStartSpawn shuffle).1, 2, (r.getStartSpawn shuffle).2⟩] ∧
      (r.processRespawns now2 shuffle).1.respawnQueue = []) := by
  refine ⟨?_, ?_, ?_⟩
  · intro hpos
    unfold resolvePelletHit
    dsimp only
    simp only [htarget, halive]
    rw [if_neg (by simp), if_neg (by omega)]
    exact ⟨rfl, rfl⟩
  · intro hle
    unfold resolvePelletHit
    dsimp only
    simp only [htarget, hshooter, halive]
    rw [if_neg (by simp), if_pos hle]
    dsimp only [Room.queueRespawn]
    refine ⟨?_, ?_, rfl, rfl⟩
    · rw [mapGet_mapSet_ne _ _ _ _ hne, mapGet_mapSet_self]
    · rw [mapGet_mapSet_self]
  · intro r pid t now2 shuffle p hq hdue hp
    unfold Room.processRespawns
    rw [hq]
    have hrev : ([(⟨pid, t⟩ : RespawnEntry)]).reverse = [⟨pid, t⟩] := rfl
    rw [hrev]
    unfold processRespawnsAux
    rw [if_pos hdue]
    have hp2 : mapGet ({ r with respawnQueue := [] } : Room).players pid =
        some p := hp
    rw [hp2]
    dsimp only
    unfold processRespawnsAux
    refine ⟨?_, rfl, rfl⟩
    rw [mapGet_mapSet_self]
    rfl

/-- The target of the C8 witness (`"B"`, 100 HP, alive). -/
def c8Target : PlayerState := { c6Player with id := "B", name := "Bob" }

/-- The room of the C8 witness: shooter `"A"`, target `"B"`. -/
def c8Room : Room :=
  { c6Room with players := [("A", c6Player), ("B", c8Target)] }

/-- Witness for C8: shooter `"A"` hits `"B"` (100 HP) with rifle damage
25 — the non-lethal branch of the theorem applies with `100 - 25 = 75`. -/
theorem shoot_hit_resolution_witness :
    (mapGet c8Room.players "B" = some c8Target ∧
      mapGet c8Room.players "A" = some c6Player ∧
      ("B" : String) ≠ "A" ∧ c8Target.alive = true ∧
      (0 : Int) < c8Target.health - 25) ∧
    ((resolvePelletHit c8Room "1" "A" (some ⟨"B", 5⟩) 25 0).1.players =
      mapSet c8Room.players "B"
        { c8Target with health := c8Target.health - 25 } ∧
    (resolvePelletHit c8Room "1" "A" (some ⟨"B", 5⟩) 25 0).2 =
      [⟨.client "B", .playerDamaged (c8Target.health - 25) "A"⟩,
       ⟨.client "A", .hitConfirmed "B" 25 (c8Target.health - 25)⟩]) :=
  ⟨⟨by decide, by decide, by decide, by decide, by decide⟩,
    (shoot_hit_resolution c8Room "1" "A" "B" 5 25 0 c8Target c6Player
      (by decide) (by decide) (by decide) (by decide)).1 (by decide)⟩

/-! ### C10: every health-touching operation keeps health in [0, 100] -/

/-- Every roster member's health lies in `[0, 100]`. -/
def healthInv (r : Room) : Prop :=
  ∀ pr ∈ r.players, 0 ≤ pr.2.health ∧ pr.2.health ≤ 100

instance healthInvDecidable (r : Room) : Decidable (healthInv r) := by
  unfold healthInv
  exact inferInstance

theorem mapGet_some_mem {α : Type} {l : List (String × α)} {k : String}
    {v : α} (h : mapGet l k = some v) : ∃ pr ∈ l, pr.2 = v := by
  unfold mapGet at h
  cases hf : l.find? fun pr => pr.1 == k with
  | none => rw [hf] at h; exact absurd h (by simp)
  | some pr =>
    rw [hf] at h
    exact ⟨pr, List.mem_of_find?_eq_some hf, Option.some.inj h⟩

theorem healthInv_addPlayer (r : Room) (id name weapon : String)
    (h : healthInv r) : healthInv (r.addPlayer id name weapon) := by
  intro pr hpr
  unfold Room.addPlayer at hpr
  dsimp only at hpr
  rcases mem_mapSet hpr with h1 | h1
  · rw [h1]
    exact ⟨by norm_num, by norm_num⟩
  · exact h pr h1

theorem healthInv_startGame (r : Room) (g : GameOracles) :
    healthInv (r.startGame g) := by
  intro pr hpr
  unfold Room.startGame at hpr
  dsimp only at hpr
  rw [List.mem_map] at hpr
  obtain ⟨a, _, heq⟩ := hpr
  rw [← heq]
  exact ⟨by norm_num, by norm_num⟩

theorem healthInv_resolvePelletHit (room : Room)
    (roomId shooterId : String) (hit : Option Hit) (damage now : Int)
    (hd : 0 < damage) (h : healthInv room) :
    healthInv (resolvePelletHit room roomId shooterId hit damage now).1 := by
  unfold resolvePelletHit
  cases hit with
  | none => exact h
  | some ht =>
    dsimp only
    cases htg : mapGet room.players ht.targetId with
    | none => exact h
    | some target =>
      dsimp only
      by_cases halive : target.alive = false
      · rw [if_pos halive]
        exact h
      · rw [if_neg halive]
        obtain ⟨prt, hprt, hprt2⟩ := mapGet_some_mem htg
        have htb := h prt hprt
        rw [hprt2] at htb
        by_cases hkill : target.health - damage ≤ 0
        · rw [if_pos hkill]
          cases hsh : mapGet room.players shooterId with
          | none => exact h
          | some shooter =>
            dsimp only
            obtain ⟨prs, hprs, hprs2⟩ := mapGet_some_mem hsh
            have hsb := h prs hprs
            rw [hprs2] at hsb
            intro pr hpr
            dsimp only [Room.queueRespawn] at hpr
            rcases mem_mapSet hpr with h1 | h1
            · rw [h1]
              exact ⟨hsb.1, hsb.2⟩
            · rcases mem_mapSet h1 with h2 | h2
              · rw [h2]
                exact ⟨by norm_num, by norm_num⟩
              · exact h pr h2
        · rw [if_neg hkill]
          intro pr hpr
          dsimp only at hpr
          rcases mem_mapSet hpr with h1 | h1
          · rw [h1]
            dsimp only
            omega
          · exact h pr h1

theorem healthInv_shootPellets (room : Room) (roomId shooterId : String)
    (hits : List (Option Hit)) (damage now : Int) (hd : 0 < damage)
    (h : healthInv room) :
    healthInv (shootPellets room roomId shooterId hits damage now).1 := by
  unfold shootPellets
  suffices haux : ∀ (hits : List (Option Hit)) (acc : Room × List Emit),
      healthInv acc.1 →
      healthInv (hits.foldl
        (fun acc hit =>
          let out := resolvePelletHit acc.1 roomId shooterId hit damage now
          (out.1, acc.2 ++ out.2)) acc).1 by
    exact haux hits (room, []) h
  intro hits
  induction hits with
  | nil => intro acc hacc; exact hacc
  | cons hit rest ih =>
    intro acc hacc
    exact ih _ (healthInv_resolvePelletHit acc.1 roomId shooterId hit damage
      now hd hacc)

theorem healthInv_processRespawns (r : Room) (now : Int)
    (shuffle : List Cell → List Cell) (h : healthInv r) :
    healthInv (r.processRespawns now shuffle).1 := by
  unfold Room.processRespawns
  suffices haux : ∀ (q : List RespawnEntry) (r : Room), healthInv r →
      healthInv (processRespawnsAux now shuffle q r).1 by
    exact haux _ _ (fun pr hpr => h pr hpr)
  intro q
  induction q with
  | nil => intro r hr; exact hr
  | cons e rest ih =>
    intro r hr
    unfold processRespawnsAux
    by_cases hdue : now ≥ e.respawnAt
    · rw [if_pos hdue]
      cases hpl : mapGet r.players e.playerId with
      | none => exact ih r hr
      | some player =>
        dsimp only
        refine ih _ ?_
        intro pr hpr
        rcases mem_mapSet hpr with h1 | h1
        · rw [h1]
          exact ⟨by norm_num, by norm_num⟩
        · exact hr pr h1
    · rw [if_neg hdue]
      dsimp only
      intro pr hpr
      exact ih r hr pr hpr

theorem healthInv_bossKill (st : ServerState) (sid : String)
    (h : ∀ pr ∈ st.rooms, healthInv pr.2) :
    ∀ pr ∈ (bossKillHandler st sid).1.rooms, healthInv pr.2 := by
  unfold bossKillHandler
  cases hpr : mapGet st.playerRooms sid with
  | none => exact h
  | some roomId =>
    dsimp only
    cases hr : mapGet st.rooms roomId with
    | none => exact h
    | some room =>
      dsimp only
      by_cases hstate : room.state ≠ RoomState.playing
      · rw [if_pos hstate]
        exact h
      · rw [if_neg hstate]
        cases hk : mapGet room.players sid with
        | none => exact h
        | some killer =>
          dsimp only
          intro pr hpr
          rcases mem_mapSet hpr with h1 | h1
          · rw [h1]
            intro q hq
            dsimp only at hq
            rw [List.mem_map] at hq
            obtain ⟨a, _, heq⟩ := hq
            rw [← heq]
            exact ⟨by norm_num, by norm_num⟩
          · exact h pr h1

/-- **C10.** Every health-touching server operation preserves
`health ∈ [0, 100]`: `addPlayer` creates players at 100; `startGame`
resets every placed player to 100; every weapon's table damage is
positive, and the pellet loop of the shoot handler (damage applied only to
living targets, health clamped to 0 on a kill) preserves the invariant for
any number of pellets; `processRespawns` restores 100; and the `bossKill`
reset restores every player of the room to 100 while touching no other
room. -/
theorem health_invariant :
    (∀ (r : Room) (id name weapon : String), healthInv r →
      healthInv (r.addPlayer id name weapon)) ∧
    (∀ (r : Room) (g : GameOracles), healthInv (r.startGame g)) ∧
    (∀ w : String, 0 < WEAPON_DAMAGE w) ∧
    (∀ (room : Room) (roomId shooterId : String) (hits : List (Option Hit))
      (damage now : Int), 0 < damage → healthInv room →
      healthInv (shootPellets room roomId shooterId hits damage now).1) ∧
    (∀ (r : Room) (now : Int) (shuffle : List Cell → List Cell),
      healthInv r → healthInv (r.processRespawns now shuffle).1) ∧
    (∀ (st : ServerState) (sid : String),
      (∀ pr ∈ st.rooms, healthInv pr.2) →
      ∀ pr ∈ (bossKillHandler st sid).1.rooms, healthInv pr.2) := by
  refine ⟨healthInv_addPlayer, healthInv_startGame, ?_,
    healthInv_shootPellets, healthInv_processRespawns, healthInv_bossKill⟩
  intro w
  unfold WEAPON_DAMAGE
  split_ifs <;> norm_num

/-- Witness for C10 on the concrete rooms of the other scenarios: a fresh
join, a full five-pellet shotgun blast into `"B"`, a respawn pass, and a
boss-kill reset. -/
theorem health_invariant_witness :
    (healthInv c6Room ∧ (0 : Int) < 15 ∧ healthInv c8Room ∧
      healthInv c3Room ∧ (∀ pr ∈ c9State.rooms, healthInv pr.2)) ∧
    (healthInv (c6Room.addPlayer "C" "Carol" "rifle") ∧
      healthInv (Room.startGame c6Room demoOracles) ∧
      (0 : Int) < WEAPON_DAMAGE "shotgun" ∧
      healthInv (shootPellets c8Room "1" "A"
        [some ⟨"B", 5⟩, some ⟨"B", 5⟩, some ⟨"B", 5⟩, some ⟨"B", 5⟩,
          some ⟨"B", 5⟩] 15 0).1 ∧
      healthInv (c3Room.processRespawns 100 (fun l => l)).1 ∧
      (∀ pr ∈ (bossKillHandler c9State "S").1.rooms, healthInv pr.2)) :=
  ⟨⟨by decide, by decide, by decide, by decide, by decide⟩,
    health_invariant.1 c6Room "C" "Carol" "rifle" (by decide),
    health_invariant.2.1 c6Room demoOracles,
    health_invariant.2.2.1 "shotgun",
    health_invariant.2.2.2.1 c8Room "1" "A"
      [some ⟨"B", 5⟩, some ⟨"B", 5⟩, some ⟨"B", 5⟩, some ⟨"B", 5⟩,
        some ⟨"B", 5⟩] 15 0 (by decide) (by decide),
    health_invariant.2.2.2.2.1 c3Room 100 (fun l => l) (by decide),
    health_invariant.2.2.2.2.2 c9State "S" (by decide)⟩

end BFPS
